import Mathlib

/-!
# next-terminal-export: decryption engine and export pipeline

A shallow embedding of `utils/aes.go` and of `export` / `findAssetAttrMapByAssetId`
from `main.go`.  Go strings and byte slices are lists of natural numbers (bytes),
a Go panic is the error side of `Except GoPanic`, and a Go `error` value is an
`Option GoError` (`none` is `nil`).  The standard-library routines the code calls
(`encoding/base64`, `crypto/md5`, `crypto/aes`, `crypto/cipher`, `fmt`) are modelled
by executable definitions.
-/

namespace NextTerminalExport

/-! ## Go values -/

/-- A Go `string` or `[]byte`: a sequence of bytes. -/
abbrev Bytes := List Nat

/-- Every element is a byte. -/
def IsBytes (bs : Bytes) : Prop := ∀ b ∈ bs, b < 256

instance (bs : Bytes) : Decidable (IsBytes bs) := by
  unfold IsBytes; infer_instance

/-- The bytes of an ASCII literal. -/
def str (s : String) : Bytes := s.toList.map Char.toNat

/-- Run-time panics the decryption path can raise. -/
inductive GoPanic where
  /-- Index expression out of range. -/
  | indexOutOfRange
  /-- Slice expression out of range. -/
  | sliceBoundsOutOfRange
  /-- Raised by `CryptBlocks`: crypto/cipher: input not full blocks. -/
  | inputNotFullBlocks
  deriving DecidableEq, Repr

/-- Go `error` values that occur in the program. -/
inductive GoError where
  /-- The `base64.CorruptInputError` at an input offset. -/
  | corruptInput (offset : Nat)
  /-- The `aes.KeySizeError` for a key length. -/
  | keySize (n : Nat)
  /-- An error reported by the data store, the encoder or the file system. -/
  | other (code : Nat)
  deriving DecidableEq, Repr

deriving instance DecidableEq for Except

/-! ## encoding/base64, standard alphabet with padding -/

/-- The decode map of `base64.StdEncoding`: the 6-bit value of an alphabet byte. -/
def decodeMap (c : Nat) : Option Nat :=
  if 65 ≤ c ∧ c ≤ 90 then some (c - 65)
  else if 97 ≤ c ∧ c ≤ 122 then some (c - 71)
  else if 48 ≤ c ∧ c ≤ 57 then some (c + 4)
  else if c = 43 then some 62
  else if c = 47 then some 63
  else none

/-- Carriage return and line feed are skipped by the decoder. -/
def isNewline (c : Nat) : Bool := c = 10 || c = 13

/-- Skip newline bytes, advancing the source index. -/
def skipNewlines : Bytes → Nat → Bytes × Nat
  | [], si => ([], si)
  | c :: rest, si => if isNewline c then skipNewlines rest (si + 1) else (c :: rest, si)

/-- After the padding of the last quantum: anything but newlines is trailing garbage. -/
def afterPadding (rest : Bytes) (si : Nat) : Option GoError :=
  match skipNewlines rest si with
  | ([], _) => none
  | (_ :: _, si1) => some (GoError.corruptInput si1)

/-- The decoding loop of `Encoding.Decode` (`decodeQuantum` repeated): `si` is the source
index, `j` the number of 6-bit values collected for the current quantum and `acc` their
big-endian value.  Returns the bytes decoded from here on and the error, if any. -/
def decodeFrom : Bytes → Nat → Nat → Nat → Bytes × Option GoError
  | [], si, j, _ => if j = 0 then ([], none) else ([], some (GoError.corruptInput (si - j)))
  | c :: rest, si, j, acc =>
    match decodeMap c with
    | some v =>
      if j = 3 then
        let val := acc * 64 + v
        let r := decodeFrom rest (si + 1) 0 0
        (val / 65536 % 256 :: val / 256 % 256 :: val % 256 :: r.1, r.2)
      else decodeFrom rest (si + 1) (j + 1) (acc * 64 + v)
    | none =>
      if isNewline c then decodeFrom rest (si + 1) j acc
      else if c ≠ 61 then ([], some (GoError.corruptInput si))
      else if j < 2 then ([], some (GoError.corruptInput si))
      else if j = 2 then
        match skipNewlines rest (si + 1) with
        | ([], si1) => ([], some (GoError.corruptInput si1))
        | (c1 :: rest1, si1) =>
          if c1 ≠ 61 then ([], some (GoError.corruptInput (si1 - 1)))
          else
            let val := acc * 4096
            ([val / 65536 % 256], afterPadding rest1 (si1 + 1))
      else
        let val := acc * 64
        ([val / 65536 % 256, val / 256 % 256], afterPadding rest (si + 1))

/-- The call `base64.StdEncoding.DecodeString`: the decoded bytes and the error. -/
def DecodeString (s : Bytes) : Bytes × Option GoError := decodeFrom s 0 0 0

/-! ## crypto/md5 and fmt -/

/-- Per-round left-rotation amounts of MD5. -/
def md5Shifts : List Nat :=
  [7, 12, 17, 22, 7, 12, 17, 22, 7, 12, 17, 22, 7, 12, 17, 22,
   5, 9, 14, 20, 5, 9, 14, 20, 5, 9, 14, 20, 5, 9, 14, 20,
   4, 11, 16, 23, 4, 11, 16, 23, 4, 11, 16, 23, 4, 11, 16, 23,
   6, 10, 15, 21, 6, 10, 15, 21, 6, 10, 15, 21, 6, 10, 15, 21]

/-- The sine-derived additive constants of MD5. -/
def md5K : List Nat := [
  0xd76aa478, 0xe8c7b756, 0x242070db, 0xc1bdceee,
  0xf57c0faf, 0x4787c62a, 0xa8304613, 0xfd469501,
  0x698098d8, 0x8b44f7af, 0xffff5bb1, 0x895cd7be,
  0x6b901122, 0xfd987193, 0xa679438e, 0x49b40821,
  0xf61e2562, 0xc040b340, 0x265e5a51, 0xe9b6c7aa,
  0xd62f105d, 0x02441453, 0xd8a1e681, 0xe7d3fbc8,
  0x21e1cde6, 0xc33707d6, 0xf4d50d87, 0x455a14ed,
  0xa9e3e905, 0xfcefa3f8, 0x676f02d9, 0x8d2a4c8a,
  0xfffa3942, 0x8771f681, 0x6d9d6122, 0xfde5380c,
  0xa4beea44, 0x4bdecfa9, 0xf6bb4b60, 0xbebfbc70,
  0x289b7ec6, 0xeaa127fa, 0xd4ef3085, 0x04881d05,
  0xd9d4d039, 0xe6db99e5, 0x1fa27cf8, 0xc4ac5665,
  0xf4292244, 0x432aff97, 0xab9423a7, 0xfc93a039,
  0x655b59c3, 0x8f0ccc92, 0xffeff47d, 0x85845dd1,
  0x6fa87e4f, 0xfe2ce6e0, 0xa3014314, 0x4e0811a1,
  0xf7537e82, 0xbd3af235, 0x2ad7d2bb, 0xeb86d391]

/-- Rotate a 32-bit word left. -/
def rotl32 (x s : Nat) : Nat := (x * 2 ^ s) % 4294967296 + x / 2 ^ (32 - s)

/-- A little-endian 32-bit word from four bytes. -/
def leWord (b0 b1 b2 b3 : Nat) : Nat := b0 + 256 * b1 + 65536 * b2 + 16777216 * b3

/-- The little-endian bytes of a value, `n` of them. -/
def leBytes : Nat → Nat → Bytes
  | 0, _ => []
  | n + 1, x => x % 256 :: leBytes n (x / 256)

/-- Group bytes into little-endian 32-bit words. -/
def leWords : Bytes → List Nat
  | b0 :: b1 :: b2 :: b3 :: rest => leWord b0 b1 b2 b3 :: leWords rest
  | _ => []

/-- One of the 64 operations of the MD5 compression function. -/
def md5Op (m : List Nat) (st : Nat × Nat × Nat × Nat) (i : Nat) : Nat × Nat × Nat × Nat :=
  let (a, b, c, d) := st
  let nb := b ^^^ 4294967295
  let nd := d ^^^ 4294967295
  let f :=
    if i < 16 then (b &&& c) ||| (nb &&& d)
    else if i < 32 then (d &&& b) ||| (nd &&& c)
    else if i < 48 then b ^^^ c ^^^ d
    else c ^^^ (b ||| nd)
  let g :=
    if i < 16 then i
    else if i < 32 then (5 * i + 1) % 16
    else if i < 48 then (3 * i + 5) % 16
    else (7 * i) % 16
  let t := (f + a + md5K.getD i 0 + m.getD g 0) % 4294967296
  (d, (b + rotl32 t (md5Shifts.getD i 0)) % 4294967296, b, c)

/-- Compress one 64-byte block into the running state. -/
def md5Block (st : Nat × Nat × Nat × Nat) (block : Bytes) : Nat × Nat × Nat × Nat :=
  let (a, b, c, d) := st
  let (a1, b1, c1, d1) := (List.range 64).foldl (md5Op (leWords block)) st
  ((a + a1) % 4294967296, (b + b1) % 4294967296, (c + c1) % 4294967296,
    (d + d1) % 4294967296)

/-- Fold the compression function over `n` consecutive 64-byte blocks. -/
def md5Blocks : Nat → Nat × Nat × Nat × Nat → Bytes → Nat × Nat × Nat × Nat
  | 0, st, _ => st
  | n + 1, st, data => md5Blocks n (md5Block st (data.take 64)) (data.drop 64)

/-- The call `md5.Sum`: the 16-byte digest of a message. -/
def md5Sum (msg : Bytes) : Bytes :=
  let zeros := (55 + 64 - msg.length % 64) % 64
  let padded := msg ++ [128] ++ List.replicate zeros 0 ++ leBytes 8 (8 * msg.length)
  let (a, b, c, d) :=
    md5Blocks (padded.length / 64) (1732584193, 4023233417, 2562383102, 271733878) padded
  leBytes 4 a ++ leBytes 4 b ++ leBytes 4 c ++ leBytes 4 d

/-- A lower-case hexadecimal digit. -/
def hexDigit (n : Nat) : Nat := if n < 10 then 48 + n else 87 + n

/-- The verb `%x` of `fmt.Sprintf` on a byte array: two lower-case digits per byte. -/
def hexLower : Bytes → Bytes
  | [] => []
  | b :: bs => hexDigit (b / 16 % 16) :: hexDigit (b % 16) :: hexLower bs

/-! ## crypto/aes -/

/-- The AES substitution box, row `x` and column `y` for the byte `xy`. -/
def sboxTable : List (List Nat) :=
  [[0x63, 0x7c, 0x77, 0x7b, 0xf2, 0x6b, 0x6f, 0xc5, 0x30, 0x01, 0x67, 0x2b, 0xfe, 0xd7, 0xab, 0x76],
   [0xca, 0x82, 0xc9, 0x7d, 0xfa, 0x59, 0x47, 0xf0, 0xad, 0xd4, 0xa2, 0xaf, 0x9c, 0xa4, 0x72, 0xc0],
   [0xb7, 0xfd, 0x93, 0x26, 0x36, 0x3f, 0xf7, 0xcc, 0x34, 0xa5, 0xe5, 0xf1, 0x71, 0xd8, 0x31, 0x15],
   [0x04, 0xc7, 0x23, 0xc3, 0x18, 0x96, 0x05, 0x9a, 0x07, 0x12, 0x80, 0xe2, 0xeb, 0x27, 0xb2, 0x75],
   [0x09, 0x83, 0x2c, 0x1a, 0x1b, 0x6e, 0x5a, 0xa0, 0x52, 0x3b, 0xd6, 0xb3, 0x29, 0xe3, 0x2f, 0x84],
   [0x53, 0xd1, 0x00, 0xed, 0x20, 0xfc, 0xb1, 0x5b, 0x6a, 0xcb, 0xbe, 0x39, 0x4a, 0x4c, 0x58, 0xcf],
   [0xd0, 0xef, 0xaa, 0xfb, 0x43, 0x4d, 0x33, 0x85, 0x45, 0xf9, 0x02, 0x7f, 0x50, 0x3c, 0x9f, 0xa8],
   [0x51, 0xa3, 0x40, 0x8f, 0x92, 0x9d, 0x38, 0xf5, 0xbc, 0xb6, 0xda, 0x21, 0x10, 0xff, 0xf3, 0xd2],
   [0xcd, 0x0c, 0x13, 0xec, 0x5f, 0x97, 0x44, 0x17, 0xc4, 0xa7, 0x7e, 0x3d, 0x64, 0x5d, 0x19, 0x73],
   [0x60, 0x81, 0x4f, 0xdc, 0x22, 0x2a, 0x90, 0x88, 0x46, 0xee, 0xb8, 0x14, 0xde, 0x5e, 0x0b, 0xdb],
   [0xe0, 0x32, 0x3a, 0x0a, 0x49, 0x06, 0x24, 0x5c, 0xc2, 0xd3, 0xac, 0x62, 0x91, 0x95, 0xe4, 0x79],
   [0xe7, 0xc8, 0x37, 0x6d, 0x8d, 0xd5, 0x4e, 0xa9, 0x6c, 0x56, 0xf4, 0xea, 0x65, 0x7a, 0xae, 0x08],
   [0xba, 0x78, 0x25, 0x2e, 0x1c, 0xa6, 0xb4, 0xc6, 0xe8, 0xdd, 0x74, 0x1f, 0x4b, 0xbd, 0x8b, 0x8a],
   [0x70, 0x3e, 0xb5, 0x66, 0x48, 0x03, 0xf6, 0x0e, 0x61, 0x35, 0x57, 0xb9, 0x86, 0xc1, 0x1d, 0x9e],
   [0xe1, 0xf8, 0x98, 0x11, 0x69, 0xd9, 0x8e, 0x94, 0x9b, 0x1e, 0x87, 0xe9, 0xce, 0x55, 0x28, 0xdf],
   [0x8c, 0xa1, 0x89, 0x0d, 0xbf, 0xe6, 0x42, 0x68, 0x41, 0x99, 0x2d, 0x0f, 0xb0, 0x54, 0xbb, 0x16]]

/-- The inverse AES substitution box, laid out like `sboxTable`. -/
def invSboxTable : List (List Nat) :=
  [[0x52, 0x09, 0x6a, 0xd5, 0x30, 0x36, 0xa5, 0x38, 0xbf, 0x40, 0xa3, 0x9e, 0x81, 0xf3, 0xd7, 0xfb],
   [0x7c, 0xe3, 0x39, 0x82, 0x9b, 0x2f, 0xff, 0x87, 0x34, 0x8e, 0x43, 0x44, 0xc4, 0xde, 0xe9, 0xcb],
   [0x54, 0x7b, 0x94, 0x32, 0xa6, 0xc2, 0x23, 0x3d, 0xee, 0x4c, 0x95, 0x0b, 0x42, 0xfa, 0xc3, 0x4e],
   [0x08, 0x2e, 0xa1, 0x66, 0x28, 0xd9, 0x24, 0xb2, 0x76, 0x5b, 0xa2, 0x49, 0x6d, 0x8b, 0xd1, 0x25],
   [0x72, 0xf8, 0xf6, 0x64, 0x86, 0x68, 0x98, 0x16, 0xd4, 0xa4, 0x5c, 0xcc, 0x5d, 0x65, 0xb6, 0x92],
   [0x6c, 0x70, 0x48, 0x50, 0xfd, 0xed, 0xb9, 0xda, 0x5e, 0x15, 0x46, 0x57, 0xa7, 0x8d, 0x9d, 0x84],
   [0x90, 0xd8, 0xab, 0x00, 0x8c, 0xbc, 0xd3, 0x0a, 0xf7, 0xe4, 0x58, 0x05, 0xb8, 0xb3, 0x45, 0x06],
   [0xd0, 0x2c, 0x1e, 0x8f, 0xca, 0x3f, 0x0f, 0x02, 0xc1, 0xaf, 0xbd, 0x03, 0x01, 0x13, 0x8a, 0x6b],
   [0x3a, 0x91, 0x11, 0x41, 0x4f, 0x67, 0xdc, 0xea, 0x97, 0xf2, 0xcf, 0xce, 0xf0, 0xb4, 0xe6, 0x73],
   [0x96, 0xac, 0x74, 0x22, 0xe7, 0xad, 0x35, 0x85, 0xe2, 0xf9, 0x37, 0xe8, 0x1c, 0x75, 0xdf, 0x6e],
   [0x47, 0xf1, 0x1a, 0x71, 0x1d, 0x29, 0xc5, 0x89, 0x6f, 0xb7, 0x62, 0x0e, 0xaa, 0x18, 0xbe, 0x1b],
   [0xfc, 0x56, 0x3e, 0x4b, 0xc6, 0xd2, 0x79, 0x20, 0x9a, 0xdb, 0xc0, 0xfe, 0x78, 0xcd, 0x5a, 0xf4],
   [0x1f, 0xdd, 0xa8, 0x33, 0x88, 0x07, 0xc7, 0x31, 0xb1, 0x12, 0x10, 0x59, 0x27, 0x80, 0xec, 0x5f],
   [0x60, 0x51, 0x7f, 0xa9, 0x19, 0xb5, 0x4a, 0x0d, 0x2d, 0xe5, 0x7a, 0x9f, 0x93, 0xc9, 0x9c, 0xef],
   [0xa0, 0xe0, 0x3b, 0x4d, 0xae, 0x2a, 0xf5, 0xb0, 0xc8, 0xeb, 0xbb, 0x3c, 0x83, 0x53, 0x99, 0x61],
   [0x17, 0x2b, 0x04, 0x7e, 0xba, 0x77, 0xd6, 0x26, 0xe1, 0x69, 0x14, 0x63, 0x55, 0x21, 0x0c, 0x7d]]

/-- Substitute one byte. -/
def subByte (b : Nat) : Nat := (sboxTable.getD (b / 16) []).getD (b % 16) 0

/-- Inverse substitution of one byte. -/
def invSubByte (b : Nat) : Nat := (invSboxTable.getD (b / 16) []).getD (b % 16) 0

/-- Multiplication by `x` in the AES field GF(2^8). -/
def xtime (b : Nat) : Nat := (2 * b) % 256 ^^^ (if b % 256 < 128 then 0 else 27)

/-- Multiplication by 9 in the AES field. -/
def mul9 (b : Nat) : Nat := xtime (xtime (xtime b)) ^^^ b

/-- Multiplication by 11 in the AES field. -/
def mul11 (b : Nat) : Nat := xtime (xtime (xtime b)) ^^^ xtime b ^^^ b

/-- Multiplication by 13 in the AES field. -/
def mul13 (b : Nat) : Nat := xtime (xtime (xtime b)) ^^^ xtime (xtime b) ^^^ b

/-- Multiplication by 14 in the AES field. -/
def mul14 (b : Nat) : Nat := xtime (xtime (xtime b)) ^^^ xtime (xtime b) ^^^ xtime b

/-- The transformation SubBytes. -/
def subBytes (s : Bytes) : Bytes := s.map subByte

/-- The transformation InvSubBytes. -/
def invSubBytes (s : Bytes) : Bytes := s.map invSubByte

/-- The transformation ShiftRows on a column-major 16-byte state. -/
def shiftRows : Bytes → Bytes
  | [s0, s1, s2, s3, s4, s5, s6, s7, s8, s9, s10, s11, s12, s13, s14, s15] =>
    [s0, s5, s10, s15, s4, s9, s14, s3, s8, s13, s2, s7, s12, s1, s6, s11]
  | s => s

/-- The transformation InvShiftRows. -/
def invShiftRows : Bytes → Bytes
  | [s0, s1, s2, s3, s4, s5, s6, s7, s8, s9, s10, s11, s12, s13, s14, s15] =>
    [s0, s13, s10, s7, s4, s1, s14, s11, s8, s5, s2, s15, s12, s9, s6, s3]
  | s => s

/-- The transformation MixColumns, column by column. -/
def mixColumns : Bytes → Bytes
  | a0 :: a1 :: a2 :: a3 :: rest =>
    (xtime a0 ^^^ (xtime a1 ^^^ a1) ^^^ a2 ^^^ a3) ::
    (a0 ^^^ xtime a1 ^^^ (xtime a2 ^^^ a2) ^^^ a3) ::
    (a0 ^^^ a1 ^^^ xtime a2 ^^^ (xtime a3 ^^^ a3)) ::
    ((xtime a0 ^^^ a0) ^^^ a1 ^^^ a2 ^^^ xtime a3) :: mixColumns rest
  | s => s

/-- The transformation InvMixColumns, column by column. -/
def invMixColumns : Bytes → Bytes
  | a0 :: a1 :: a2 :: a3 :: rest =>
    (mul14 a0 ^^^ mul11 a1 ^^^ mul13 a2 ^^^ mul9 a3) ::
    (mul9 a0 ^^^ mul14 a1 ^^^ mul11 a2 ^^^ mul13 a3) ::
    (mul13 a0 ^^^ mul9 a1 ^^^ mul14 a2 ^^^ mul11 a3) ::
    (mul11 a0 ^^^ mul13 a1 ^^^ mul9 a2 ^^^ mul14 a3) :: invMixColumns rest
  | s => s

/-- Byte-wise exclusive or of two byte strings. -/
def xorBytes (a b : Bytes) : Bytes := List.zipWith (fun x y => x ^^^ y) a b

/-- The transformation AddRoundKey. -/
def addRoundKey (s k : Bytes) : Bytes := xorBytes s k

/-- The round constants of the key schedule. -/
def rcon : List Nat := [1, 2, 4, 8, 16, 32, 64, 128, 27, 54, 108, 216, 171, 77, 154]

/-- One word of the key schedule: `w` holds the words so far, `nk` is the key length in
words, and the new word has index `w.length`. -/
def nextWord (nk : Nat) (w : List Bytes) : Bytes :=
  let i := w.length
  let prev := w.getD (i - 1) []
  let temp :=
    if i % nk = 0 then
      xorBytes (subBytes (prev.drop 1 ++ prev.take 1)) [rcon.getD (i / nk - 1) 0, 0, 0, 0]
    else if 6 < nk ∧ i % nk = 4 then subBytes prev
    else prev
  xorBytes (w.getD (i - nk) []) temp

/-- Append `n` further words to the key schedule. -/
def expandWords (nk : Nat) : Nat → List Bytes → List Bytes
  | 0, w => w
  | n + 1, w => expandWords nk n (w ++ [nextWord nk w])

/-- Split into consecutive chunks of `k` bytes, `n` of them. -/
def chunks (k : Nat) : Nat → Bytes → List Bytes
  | 0, _ => []
  | n + 1, bs => bs.take k :: chunks k n (bs.drop k)

/-- The key expansion: `nk + 7` round keys of 16 bytes for a key of `nk` words. -/
def expandKey (key : Bytes) : List Bytes :=
  let nk := key.length / 4
  let w := expandWords nk (4 * (nk + 7) - nk) (chunks 4 nk key)
  chunks 16 (nk + 7) w.flatten

/-- The middle rounds of the inverse cipher, round keys given last round first. -/
def invRounds : List Bytes → Bytes → Bytes
  | [], s => s
  | k :: ks, s => invRounds ks (invMixColumns (addRoundKey (invSubBytes (invShiftRows s)) k))

/-- The inverse cipher on one block, for round keys `k0 :: mid ++ [kLast]`. -/
def decryptBlock (roundKeys : List Bytes) (c : Bytes) : Bytes :=
  match roundKeys with
  | [] => c
  | k0 :: ks =>
    let s := addRoundKey c (ks.getLastD [])
    let s := invRounds ks.dropLast.reverse s
    addRoundKey (invSubBytes (invShiftRows s)) k0

/-- The call `aes.NewCipher`: the key schedule, or a key size error. -/
def NewCipher (key : Bytes) : Except GoError (List Bytes) :=
  if key.length = 16 ∨ key.length = 24 ∨ key.length = 32 then Except.ok (expandKey key)
  else Except.error (GoError.keySize key.length)

/-! ## crypto/cipher: CBC decryption -/

/-- CBC decryption of `n` consecutive blocks with previous ciphertext block `prev`. -/
def cbcDecryptBlocks (roundKeys : List Bytes) : Nat → Bytes → Bytes → Bytes
  | 0, _, _ => []
  | n + 1, prev, src =>
    xorBytes (decryptBlock roundKeys (src.take 16)) prev ++
      cbcDecryptBlocks roundKeys n (src.take 16) (src.drop 16)

/-- The call `CryptBlocks` of a CBC decrypter into a fresh destination of the same
length: panics unless the input is a whole number of blocks. -/
def CryptBlocks (roundKeys : List Bytes) (iv src : Bytes) : Except GoPanic Bytes :=
  if src.length % 16 ≠ 0 then Except.error GoPanic.inputNotFullBlocks
  else Except.ok (cbcDecryptBlocks roundKeys (src.length / 16) iv src)

/-! ## utils/aes.go -/

/-- The index expression `xs[i]`: panics outside the slice. -/
def indexAt (xs : Bytes) (i : Int) : Except GoPanic Nat :=
  if i < 0 ∨ (xs.length : Int) ≤ i then Except.error GoPanic.indexOutOfRange
  else Except.ok (xs.getD i.toNat 0)

/-- The slice expression `xs[:hi]`: panics outside the slice. -/
def sliceTo (xs : Bytes) (hi : Int) : Except GoPanic Bytes :=
  if hi < 0 ∨ (xs.length : Int) < hi then Except.error GoPanic.sliceBoundsOutOfRange
  else Except.ok (xs.take hi.toNat)

/-- The package variable `encryptionPassword`. -/
def encryptionPassword : Bytes := hexLower (md5Sum (str "next-terminal"))

/-- The function `PKCS5UnPadding`. -/
def PKCS5UnPadding (origData : Bytes) : Except GoPanic Bytes :=
  let length : Int := origData.length
  match indexAt origData (length - 1) with
  | Except.error p => Except.error p
  | Except.ok b =>
    let unPadding : Int := b
    sliceTo origData (length - unPadding)

/-- The function `AesDecryptCBC`. -/
def AesDecryptCBC (encrypted key : Bytes) : Except GoPanic (Bytes × Option GoError) :=
  match NewCipher key with
  | Except.error err => Except.ok ([], some err)
  | Except.ok block =>
    let blockSize : Int := 16
    match sliceTo key blockSize with
    | Except.error p => Except.error p
    | Except.ok iv =>
      match CryptBlocks block iv encrypted with
      | Except.error p => Except.error p
      | Except.ok origData =>
        match PKCS5UnPadding origData with
        | Except.error p => Except.error p
        | Except.ok origData => Except.ok (origData, none)

/-- The function `Decrypt`. -/
def Decrypt (encrypted : Bytes) : Except GoPanic (Bytes × Option GoError) :=
  match DecodeString encrypted with
  | (_, some err) => Except.ok ([], some err)
  | (origData, none) =>
    match AesDecryptCBC origData encryptionPassword with
    | Except.error p => Except.error p
    | Except.ok (_, some err) => Except.ok ([], some err)
    | Except.ok (decrypt, none) => Except.ok (decrypt, none)

/-- The body of `MustDecrypt` with the callee `Decrypt` as an argument. -/
def MustDecryptWith (decryptFn : Bytes → Except GoPanic (Bytes × Option GoError))
    (encrypted : Bytes) : Except GoPanic Bytes :=
  if encrypted = str "" ∨ encrypted = str "-" then Except.ok (str "")
  else
    match decryptFn encrypted with
    | Except.error p => Except.error p
    | Except.ok (decrypt, _) => Except.ok decrypt

/-- The function `MustDecrypt`. -/
def MustDecrypt (encrypted : Bytes) : Except GoPanic Bytes :=
  MustDecryptWith Decrypt encrypted

/-! ## Records of package model and the data store -/

/-- The types the program leaves abstract: the declarations of `common.JsonTime` and of
most records of package model are taken as given, the columns `export` never touches
being one value of an arbitrary type per record. -/
structure Schema where
  /-- The type `common.JsonTime`. -/
  Time : Type
  /-- Dynamic values other than strings that `StructToMap` stores in a map. -/
  Dyn : Type
  /-- The columns of `model.User` other than `Password`. -/
  UserFields : Type
  /-- The columns of `model.UserGroup` other than `ID` and `Members`. -/
  UserGroupFields : Type
  /-- The columns of `model.Credential` other than the three secrets. -/
  CredentialFields : Type
  /-- The columns of `model.Asset` other than `ID`, `Created` and the three secrets. -/
  AssetFields : Type
  /-- The record `model.Storage`. -/
  Storage : Type
  /-- The record `model.Strategy`. -/
  Strategy : Type
  /-- The record `model.AccessSecurity`. -/
  AccessSecurity : Type
  /-- The record `model.AccessGateway`. -/
  AccessGateway : Type
  /-- The record `model.Command`. -/
  Command : Type

/-- The record `model.User`. -/
structure User (S : Schema) where
  /-- The stored password. -/
  Password : Bytes
  /-- All other columns. -/
  fields : S.UserFields

/-- The record `model.UserGroup`. -/
structure UserGroup (S : Schema) where
  /-- The primary key. -/
  ID : Bytes
  /-- The member user ids, filled in by `export`. -/
  Members : List Bytes
  /-- All other columns. -/
  fields : S.UserGroupFields

/-- The record `model.Credential`. -/
structure Credential (S : Schema) where
  /-- Encrypted password. -/
  Password : Bytes
  /-- Encrypted private key. -/
  PrivateKey : Bytes
  /-- Encrypted passphrase. -/
  Passphrase : Bytes
  /-- All other columns. -/
  fields : S.CredentialFields

/-- The record `model.Asset`. -/
structure Asset (S : Schema) where
  /-- The primary key. -/
  ID : Bytes
  /-- Encrypted password. -/
  Password : Bytes
  /-- Encrypted private key. -/
  PrivateKey : Bytes
  /-- Encrypted passphrase. -/
  Passphrase : Bytes
  /-- The creation instant. -/
  Created : S.Time
  /-- All other columns. -/
  fields : S.AssetFields

/-- The record `model.AssetAttribute`, as far as the program reads it. -/
structure AssetAttribute where
  /-- The attribute name. -/
  Name : Bytes
  /-- The attribute value. -/
  Value : Bytes

/-- The record `model.Job` of `model/job.go`. -/
structure Job (S : Schema) where
  /-- Column `id`. -/
  ID : Bytes
  /-- Column `cronJobId`. -/
  CronJobId : Int
  /-- Column `name`. -/
  Name : Bytes
  /-- Column `func`. -/
  Func : Bytes
  /-- Column `cron`. -/
  Cron : Bytes
  /-- Column `mode`. -/
  Mode : Bytes
  /-- Column `resourceIds`. -/
  ResourceIds : Bytes
  /-- Column `status`. -/
  Status : Bytes
  /-- Column `metadata`. -/
  Metadata : Bytes
  /-- Column `created`. -/
  Created : S.Time
  /-- Column `updated`. -/
  Updated : S.Time

/-- A Go `interface{}` value held in a map. -/
inductive AnyValue (S : Schema) where
  /-- The nil interface, the zero value of a map lookup. -/
  | null
  /-- A string. -/
  | text (s : Bytes)
  /-- Any other dynamic value. -/
  | dyn (d : S.Dyn)

/-- A Go `map[string]V`: an association list read at the first entry of a key. -/
abbrev GoMap (V : Type) := List (Bytes × V)

/-- The lookup `m[k]`, with `none` for an absent key. -/
def mapGet {V : Type} : GoMap V → Bytes → Option V
  | [], _ => none
  | (k1, v) :: m, k => if k1 = k then some v else mapGet m k

/-- The assignment `m[k] = v`. -/
def mapSet {V : Type} : GoMap V → Bytes → V → GoMap V
  | [], k, v => [(k, v)]
  | (k1, v1) :: m, k, v => if k1 = k then (k1, v) :: m else (k1, v1) :: mapSet m k v

/-- The keys of a map. -/
def mapKeys {V : Type} (m : GoMap V) : List Bytes := m.map Prod.fst

/-- The data store as the program reads it: the outcome of every query `export` issues.
`Except.error` stands for a non-nil `Error` of the query. -/
structure DB (S : Schema) where
  /-- The query `db.Find(&users)`. -/
  users : Except GoError (List (User S))
  /-- The query `db.Find(&userGroups)`. -/
  userGroups : Except GoError (List (UserGroup S))
  /-- The member ids of a user group, from table `user_group_members`. -/
  userGroupMembers : Bytes → Except GoError (List Bytes)
  /-- The query `db.Find(&storages)`. -/
  storages : Except GoError (List S.Storage)
  /-- The query `db.Find(&strategies)`. -/
  strategies : Except GoError (List S.Strategy)
  /-- The query `db.Find(&jobs)`. -/
  jobs : Except GoError (List (Job S))
  /-- The query `db.Find(&accessGateways)`. -/
  accessGateways : Except GoError (List S.AccessGateway)
  /-- The query `db.Find(&commands)`. -/
  commands : Except GoError (List S.Command)
  /-- The query `db.Find(&credentials)`. -/
  credentials : Except GoError (List (Credential S))
  /-- The query on table `assets`. -/
  assets : Except GoError (List (Asset S))
  /-- The attributes of an asset, from table `asset_attributes`. -/
  assetAttributes : Bytes → Except GoError (List AssetAttribute)

/-- The struct `Backup`. -/
structure Backup (S : Schema) where
  /-- Key `users`. -/
  Users : List (User S)
  /-- Key `user_groups`. -/
  UserGroups : List (UserGroup S)
  /-- Key `storages`. -/
  Storages : List S.Storage
  /-- Key `strategies`. -/
  Strategies : List S.Strategy
  /-- Key `access_securities`. -/
  AccessSecurities : List S.AccessSecurity
  /-- Key `access_gateways`. -/
  AccessGateways : List S.AccessGateway
  /-- Key `commands`. -/
  Commands : List S.Command
  /-- Key `credentials`. -/
  Credentials : List (Credential S)
  /-- Key `assets`. -/
  Assets : List (GoMap (AnyValue S))
  /-- Key `jobs`. -/
  Jobs : List (Job S)

/-- What `export` calls outside the data store and package utils' decryption. -/
structure Env (S : Schema) where
  /-- The function `utils.StructToMap` on an asset. -/
  StructToMap : Asset S → GoMap (AnyValue S)
  /-- The method `Format` of `common.JsonTime`, applied to a layout. -/
  Format : S.Time → Bytes → Bytes
  /-- The order in which a `range` loop visits the keys of a map. -/
  rangeOrder : GoMap (AnyValue S) → List Bytes
  /-- The call `json.MarshalIndent` on the backup. -/
  MarshalIndent : Backup S → Except GoError Bytes
  /-- The call `os.WriteFile`: the error, if any. -/
  WriteFile : Bytes → Bytes → Option GoError

/-! ## main.go -/

/-- The function `findAssetAttrMapByAssetId`. -/
def findAssetAttrMapByAssetId {S : Schema} (db : DB S) (assetId : Bytes) :
    Except GoError (GoMap (AnyValue S)) :=
  match db.assetAttributes assetId with
  | Except.error err => Except.error err
  | Except.ok attrs =>
    Except.ok (attrs.foldl (fun attrMap attr => mapSet attrMap attr.Name
      (AnyValue.text attr.Value)) [])

/-- The merge in the asset loop of `export`: the map of the asset, the attributes written
over it in the order of the `range` loop, and the key `created`. -/
def mergeAsset {S : Schema} (env : Env S) (asset : Asset S)
    (attributeMap : GoMap (AnyValue S)) : GoMap (AnyValue S) :=
  let itemMap := env.StructToMap asset
  let itemMap := (env.rangeOrder attributeMap).foldl
    (fun m key => mapSet m key ((mapGet attributeMap key).getD AnyValue.null)) itemMap
  mapSet itemMap (str "created")
    (AnyValue.text (env.Format asset.Created (str "2006-01-02 15:04:05")))

/-- The loop of `export` over the user groups: attach the member ids of each group, or
stop at the first failing query with its error. -/
def loadMembers {S : Schema} (db : DB S) :
    List (UserGroup S) → Except GoError (List (UserGroup S))
  | [] => Except.ok []
  | g :: gs =>
    match db.userGroupMembers g.ID with
    | Except.error err => Except.error err
    | Except.ok members =>
      match loadMembers db gs with
      | Except.error err => Except.error err
      | Except.ok gs1 => Except.ok ({ g with Members := members } :: gs1)

/-- The body of the credential loop of `export`: decrypt the three secrets in place. -/
def decryptCredential {S : Schema} (c : Credential S) : Except GoPanic (Credential S) :=
  match MustDecrypt c.Password with
  | Except.error p => Except.error p
  | Except.ok password =>
    match MustDecrypt c.PrivateKey with
    | Except.error p => Except.error p
    | Except.ok privateKey =>
      match MustDecrypt c.Passphrase with
      | Except.error p => Except.error p
      | Except.ok passphrase =>
        Except.ok { c with Password := password, PrivateKey := privateKey,
                           Passphrase := passphrase }

/-- The loop of `export` over the credentials. -/
def decryptCredentials {S : Schema} :
    List (Credential S) → Except GoPanic (List (Credential S))
  | [] => Except.ok []
  | c :: cs =>
    match decryptCredential c with
    | Except.error p => Except.error p
    | Except.ok c1 =>
      match decryptCredentials cs with
      | Except.error p => Except.error p
      | Except.ok cs1 => Except.ok (c1 :: cs1)

/-- The first three statements of the asset loop of `export`: decrypt the secrets of the
asset in place. -/
def decryptAsset {S : Schema} (a : Asset S) : Except GoPanic (Asset S) :=
  match MustDecrypt a.Password with
  | Except.error p => Except.error p
  | Except.ok password =>
    match MustDecrypt a.PrivateKey with
    | Except.error p => Except.error p
    | Except.ok privateKey =>
      match MustDecrypt a.Passphrase with
      | Except.error p => Except.error p
      | Except.ok passphrase =>
        Except.ok { a with Password := password, PrivateKey := privateKey,
                           Passphrase := passphrase }

/-- The loop of `export` over the assets: decrypt the secrets, read the attributes and
merge; a failing attribute query ends the loop with its error. -/
def exportAssets {S : Schema} (env : Env S) (db : DB S) :
    List (Asset S) → Except GoPanic (Except GoError (List (GoMap (AnyValue S))))
  | [] => Except.ok (Except.ok [])
  | a :: rest =>
    match decryptAsset a with
    | Except.error p => Except.error p
    | Except.ok asset =>
      match findAssetAttrMapByAssetId db asset.ID with
      | Except.error err => Except.ok (Except.error err)
      | Except.ok attributeMap =>
        match exportAssets env db rest with
        | Except.error p => Except.error p
        | Except.ok (Except.error err) => Except.ok (Except.error err)
        | Except.ok (Except.ok assetMaps) =>
          Except.ok (Except.ok (mergeAsset env asset attributeMap :: assetMaps))

/-- The function `export` up to the assembly of the backup: `Sum.inl err` is an early
`return err` with the value the result variable `err` has at that point, `Sum.inr` the
assembled backup. -/
def exportBackup {S : Schema} (env : Env S) (db : DB S) :
    Except GoPanic (Option GoError ⊕ Backup S) :=
  -- the named result `err`, nil until assigned
  let err : Option GoError := none
  match db.users with
  | Except.error _ => Except.ok (Sum.inl err)
  | Except.ok users =>
    let users := users.map (fun u => { u with Password := str "" })
    match db.userGroups with
    | Except.error _ => Except.ok (Sum.inl err)
    | Except.ok userGroups =>
      match loadMembers db userGroups with
      | Except.error e => Except.ok (Sum.inl (some e))
      | Except.ok userGroups =>
        -- every assignment to `err` in the loop stored nil
        let err : Option GoError := none
        match db.storages with
        | Except.error _ => Except.ok (Sum.inl err)
        | Except.ok storages =>
          match db.strategies with
          | Except.error _ => Except.ok (Sum.inl err)
          | Except.ok strategies =>
            match db.jobs with
            | Except.error _ => Except.ok (Sum.inl err)
            | Except.ok jobs =>
              match db.accessGateways with
              | Except.error _ => Except.ok (Sum.inl err)
              | Except.ok accessGateways =>
                match db.commands with
                | Except.error _ => Except.ok (Sum.inl err)
                | Except.ok commands =>
                  match db.credentials with
                  | Except.error _ => Except.ok (Sum.inl err)
                  | Except.ok credentials =>
                    match decryptCredentials credentials with
                    | Except.error p => Except.error p
                    | Except.ok credentials =>
                      match db.assets with
                      | Except.error _ => Except.ok (Sum.inl err)
                      | Except.ok assets =>
                        match exportAssets env db assets with
                        | Except.error p => Except.error p
                        | Except.ok (Except.error e) => Except.ok (Sum.inl (some e))
                        | Except.ok (Except.ok assetMaps) =>
                          Except.ok (Sum.inr
                            { Users := users
                              UserGroups := userGroups
                              Storages := storages
                              Strategies := strategies
                              AccessSecurities := []
                              Jobs := jobs
                              AccessGateways := accessGateways
                              Commands := commands
                              Credentials := credentials
                              Assets := assetMaps })

/-- What a run of `export` leaves behind: the returned error and the calls of
`os.WriteFile` it made, each with file name and contents. -/
structure ExportResult where
  /-- The returned `error`, `none` for nil. -/
  err : Option GoError
  /-- The files handed to `os.WriteFile`. -/
  writes : List (Bytes × Bytes)
  deriving DecidableEq, Repr

/-- The function `export` (the name is reserved in Lean). -/
def exportRun {S : Schema} (env : Env S) (db : DB S) : Except GoPanic ExportResult :=
  match exportBackup env db with
  | Except.error p => Except.error p
  | Except.ok (Sum.inl err) => Except.ok { err := err, writes := [] }
  | Except.ok (Sum.inr backup) =>
    match env.MarshalIndent backup with
    | Except.error err => Except.ok { err := some err, writes := [] }
    | Except.ok indent =>
      match env.WriteFile (str "backup.json") indent with
      | some err => Except.ok { err := some err, writes := [(str "backup.json", indent)] }
      | none => Except.ok { err := none, writes := [(str "backup.json", indent)] }

/-- The part of `main` after the data store is opened: `true` when the run ends in
`log.Fatalf`, which is when `export` returned a non-nil error. -/
def mainReportsFatal {S : Schema} (env : Env S) (db : DB S) : Except GoPanic Bool :=
  match exportRun env db with
  | Except.error p => Except.error p
  | Except.ok r => Except.ok r.err.isSome

/-! ## Encryption, the direction the program never runs

The round-trip law speaks of ciphertexts made with the documented scheme; these
definitions follow the specification's description of that scheme. -/

/-- A 16-byte block. -/
def IsBlock (s : Bytes) : Prop := s.length = 16 ∧ IsBytes s

instance (s : Bytes) : Decidable (IsBlock s) := by
  unfold IsBlock; infer_instance

/-- The middle rounds of the forward cipher. -/
def rounds : List Bytes → Bytes → Bytes
  | [], s => s
  | k :: ks, s => rounds ks (addRoundKey (mixColumns (shiftRows (subBytes s))) k)

/-- The forward cipher on one block. -/
def encryptBlock (roundKeys : List Bytes) (p : Bytes) : Bytes :=
  match roundKeys with
  | [] => p
  | k0 :: ks =>
    let s := rounds ks.dropLast (addRoundKey p k0)
    addRoundKey (shiftRows (subBytes s)) (ks.getLastD [])

/-- CBC encryption of `n` consecutive blocks with previous ciphertext block `prev`. -/
def cbcEncryptBlocks (roundKeys : List Bytes) : Nat → Bytes → Bytes → Bytes
  | 0, _, _ => []
  | n + 1, prev, src =>
    let c := encryptBlock roundKeys (xorBytes (src.take 16) prev)
    c ++ cbcEncryptBlocks roundKeys n c (src.drop 16)

/-- The standard base64 alphabet. -/
def encodeChar (v : Nat) : Nat :=
  (str "ABCDEFGHIJKLMNOPQRSTUVWXYZabcdefghijklmnopqrstuvwxyz0123456789+/").getD v 0

/-- Standard base64 encoding with padding. -/
def EncodeToString : Bytes → Bytes
  | b0 :: b1 :: b2 :: rest =>
    let val := b0 * 65536 + b1 * 256 + b2
    encodeChar (val / 262144 % 64) :: encodeChar (val / 4096 % 64) ::
      encodeChar (val / 64 % 64) :: encodeChar (val % 64) :: EncodeToString rest
  | [b0, b1] =>
    let val := b0 * 65536 + b1 * 256
    [encodeChar (val / 262144 % 64), encodeChar (val / 4096 % 64),
      encodeChar (val / 64 % 64), 61]
  | [b0] =>
    let val := b0 * 65536
    [encodeChar (val / 262144 % 64), encodeChar (val / 4096 % 64), 61, 61]
  | [] => []

/-- Trailing-byte padding: `N = 16 - len mod 16` bytes of value `N`. -/
def pkcs5Pad (p : Bytes) : Bytes :=
  let n := 16 - p.length % 16
  p ++ List.replicate n n

/-- The documented encryption: pad, encrypt in CBC mode under the fixed key with the
first 16 key bytes as initialization vector, encode in base64. -/
def encrypt (p : Bytes) : Bytes :=
  let padded := pkcs5Pad p
  EncodeToString (cbcEncryptBlocks (expandKey encryptionPassword) (padded.length / 16)
    (encryptionPassword.take 16) padded)

/-- The plaintext `AesDecryptCBC` hands to `PKCS5UnPadding` for a ciphertext under the
fixed key. -/
def cbcPlaintext (ct : Bytes) : Bytes :=
  cbcDecryptBlocks (expandKey encryptionPassword) (ct.length / 16)
    (encryptionPassword.take 16) ct

/-! ## Standard base64 text, in the words of RFC 4648 -/

/-- A character of the standard alphabet: a letter, a digit, `+` or `/`. -/
def isAlphabet (c : Nat) : Bool :=
  (65 ≤ c && c ≤ 90) || (97 ≤ c && c ≤ 122) || (48 ≤ c && c ≤ 57) || c == 43 || c == 47

/-- The text without carriage returns and line feeds. -/
def stripNewlines (s : Bytes) : Bytes := s.filter (fun c => !isNewline c)

/-- Padded base64 text: groups of four alphabet characters, the last group possibly
ending in one or two padding characters `=`. -/
def isPaddedBase64 : Bytes → Bool
  | [] => true
  | a :: b :: c :: d :: rest =>
    isAlphabet a && isAlphabet b &&
      ((isAlphabet c && isAlphabet d && isPaddedBase64 rest) ||
       (isAlphabet c && d == 61 && rest.isEmpty) ||
       (c == 61 && d == 61 && rest.isEmpty))
  | _ => false

/-- Padded base64 text continued from inside a group of which `j` characters were read. -/
def acceptsFrom : Nat → Bytes → Bool
  | j, [] => j == 0
  | j, c :: rest =>
    if isAlphabet c then acceptsFrom (if j = 3 then 0 else j + 1) rest
    else if c = 61 then (j == 2 && decide (rest = [61])) || (j == 3 && rest.isEmpty)
    else false

/-! ## The merge law, in the words of the specification -/

/-- The record `M` is the merge of base fields `B` and overrides `A` with creation
time string `created`: the key `created` holds that string, any other key holds the
override when there is one and the base field otherwise, and `M` has no further keys. -/
def IsMerge {S : Schema} (B A M : GoMap (AnyValue S)) (created : Bytes) : Prop :=
  (∀ k, mapGet M k =
    if k = str "created" then some (AnyValue.text created)
    else match mapGet A k with
      | some v => some v
      | none => mapGet B k) ∧
  (∀ k, k ∈ mapKeys M ↔ k = str "created" ∨ k ∈ mapKeys A ∨ k ∈ mapKeys B)

/-! ## A small data store -/

/-- A schema with numbers for time and for the other dynamic values. -/
@[reducible] def sampleSchema : Schema where
  Time := Nat
  Dyn := Nat
  UserFields := Bytes
  UserGroupFields := Unit
  CredentialFields := Bytes
  AssetFields := Nat
  Storage := Unit
  Strategy := Unit
  AccessSecurity := Unit
  AccessGateway := Unit
  Command := Unit

/-- An asset with the port 22 and no secrets. -/
def sampleAsset : Asset sampleSchema :=
  { ID := str "a1", Password := str "-", PrivateKey := str "", Passphrase := str "",
    Created := (0 : Nat), fields := (22 : Nat) }

/-- One user with the password `secret`, one credential whose password is the
encryption of `hunter2`, and one asset whose attribute `port` is `2222`. -/
def sampleDB : DB sampleSchema where
  users := Except.ok [{ Password := str "secret", fields := str "admin" }]
  userGroups := Except.ok [{ ID := str "g1", Members := [], fields := () }]
  userGroupMembers := fun _ => Except.ok [str "u1"]
  storages := Except.ok []
  strategies := Except.ok []
  jobs := Except.ok []
  accessGateways := Except.ok []
  commands := Except.ok []
  credentials := Except.ok
    [{ Password := str "+kHFlv9JhGGwzhiiEt9QjQ==", PrivateKey := str "-", Passphrase := str "",
       fields := str "root" }]
  assets := Except.ok [sampleAsset]
  assetAttributes := fun _ => Except.ok [{ Name := str "port", Value := str "2222" }]

/-- An environment in which encoding and writing succeed. -/
def sampleEnv : Env sampleSchema where
  StructToMap := fun a =>
    [(str "id", AnyValue.text a.ID), (str "port", AnyValue.dyn a.fields),
     (str "password", AnyValue.text a.Password)]
  Format := fun _ _ => str "1970-01-01 00:00:00"
  rangeOrder := fun m => (mapKeys m).reverse
  MarshalIndent := fun b => Except.ok (b.Credentials.map (fun c => c.Password)).flatten
  WriteFile := fun _ _ => none

/-- The sample data store with a failing query for the users. -/
def sampleDBUsersFail : DB sampleSchema :=
  { sampleDB with users := Except.error (GoError.other 1) }

/-- Query results in which the name `port` occurs twice. -/
def sampleAttributes : List AssetAttribute :=
  [{ Name := str "port", Value := str "2222" }, { Name := str "host", Value := str "h" },
   { Name := str "port", Value := str "2200" }]

/-- The sample data store with the attributes `sampleAttributes` for every asset. -/
def sampleDBTwoPorts : DB sampleSchema :=
  { sampleDB with assetAttributes := fun _ => Except.ok sampleAttributes }

/-! ## Theorems -/

theorem xtime_eq (c : Nat) :
    xtime c = ((c <<< 1) % 2 ^ 8) ^^^ (if c.testBit 7 then 27 else 0) := by
  unfold xtime
  have h1 : 2 * c = c <<< 1 := by rw [Nat.shiftLeft_eq]; omega
  have h2 : c.testBit 7 = decide (c / 2 ^ 7 % 2 = 1) := Nat.testBit_to_div_mod
  rw [h1, h2]
  by_cases h : c % 256 < 128
  · have : ¬ (c / 128 % 2 = 1) := by omega
    simp [h, this]
  · have : c / 128 % 2 = 1 := by omega
    simp [h, this]

theorem xtime_xor (a b : Nat) : xtime (a ^^^ b) = xtime a ^^^ xtime b := by
  apply Nat.eq_of_testBit_eq
  intro i
  simp only [xtime_eq, Nat.testBit_xor, Nat.testBit_mod_two_pow, Nat.testBit_shiftLeft]
  cases a.testBit 7 <;> cases b.testBit 7 <;> cases decide (i < 8) <;> cases decide (i ≥ 1) <;>
    cases a.testBit (i - 1) <;> cases b.testBit (i - 1) <;> cases Nat.testBit 27 i <;> simp

theorem xtime_lt (b : Nat) : xtime b < 256 := by
  unfold xtime
  have h1 : 2 * b % 256 < 2 ^ 8 := by omega
  have h2 : (if b % 256 < 128 then 0 else 27) < 2 ^ 8 := by split <;> decide
  exact Nat.xor_lt_two_pow h1 h2

theorem xor_lt_256 {a b : Nat} (ha : a < 256) (hb : b < 256) : a ^^^ b < 256 :=
  Nat.xor_lt_two_pow (n := 8) ha hb

theorem mul9_xor (a b : Nat) : mul9 (a ^^^ b) = mul9 a ^^^ mul9 b := by
  simp only [mul9, xtime_xor]; ac_rfl
theorem mul11_xor (a b : Nat) : mul11 (a ^^^ b) = mul11 a ^^^ mul11 b := by
  simp only [mul11, xtime_xor]; ac_rfl
theorem mul13_xor (a b : Nat) : mul13 (a ^^^ b) = mul13 a ^^^ mul13 b := by
  simp only [mul13, xtime_xor]; ac_rfl
theorem mul14_xor (a b : Nat) : mul14 (a ^^^ b) = mul14 a ^^^ mul14 b := by
  simp only [mul14, xtime_xor]; ac_rfl

set_option maxRecDepth 100000 in
theorem invSub_sub : ∀ b < 256, invSubByte (subByte b) = b := by decide!

set_option maxRecDepth 100000 in
theorem sboxTable_lt : ∀ row ∈ sboxTable, ∀ x ∈ row, x < 256 := by decide!

theorem mix_coeffs : ∀ a < 256,
    (mul14 (xtime a) ^^^ mul11 a ^^^ mul13 a ^^^ mul9 (xtime a) ^^^ mul9 a = a) ∧
    (mul14 (xtime a) ^^^ mul14 a ^^^ mul11 (xtime a) ^^^ mul13 a ^^^ mul9 a = 0) ∧
    (mul14 a ^^^ mul11 (xtime a) ^^^ mul11 a ^^^ mul13 (xtime a) ^^^ mul9 a = 0) ∧
    (mul14 a ^^^ mul11 a ^^^ mul13 (xtime a) ^^^ mul13 a ^^^ mul9 (xtime a) = 0) := by
  decide!

theorem invMix_mix_column (a0 a1 a2 a3 : Nat) (h0 : a0 < 256) (h1 : a1 < 256)
    (h2 : a2 < 256) (h3 : a3 < 256) :
    invMixColumns (mixColumns [a0, a1, a2, a3]) = [a0, a1, a2, a3] := by
  obtain ⟨p0, q0, r0, s0⟩ := mix_coeffs a0 h0
  obtain ⟨p1, q1, r1, s1⟩ := mix_coeffs a1 h1
  obtain ⟨p2, q2, r2, s2⟩ := mix_coeffs a2 h2
  obtain ⟨p3, q3, r3, s3⟩ := mix_coeffs a3 h3
  simp only [mixColumns, invMixColumns, mul9_xor, mul11_xor, mul13_xor, mul14_xor]
  congr 1
  · calc _ = (mul14 (xtime a0) ^^^ mul11 a0 ^^^ mul13 a0 ^^^ mul9 (xtime a0) ^^^ mul9 a0) ^^^
            (mul14 (xtime a1) ^^^ mul14 a1 ^^^ mul11 (xtime a1) ^^^ mul13 a1 ^^^ mul9 a1) ^^^
            (mul14 a2 ^^^ mul11 (xtime a2) ^^^ mul11 a2 ^^^ mul13 (xtime a2) ^^^ mul9 a2) ^^^
            (mul14 a3 ^^^ mul11 a3 ^^^ mul13 (xtime a3) ^^^ mul13 a3 ^^^ mul9 (xtime a3)) := by
          ac_rfl
      _ = a0 := by rw [p0, q1, r2, s3]; simp
  congr 1
  · calc _ = (mul14 a0 ^^^ mul11 a0 ^^^ mul13 (xtime a0) ^^^ mul13 a0 ^^^ mul9 (xtime a0)) ^^^
            (mul14 (xtime a1) ^^^ mul11 a1 ^^^ mul13 a1 ^^^ mul9 (xtime a1) ^^^ mul9 a1) ^^^
            (mul14 (xtime a2) ^^^ mul14 a2 ^^^ mul11 (xtime a2) ^^^ mul13 a2 ^^^ mul9 a2) ^^^
            (mul14 a3 ^^^ mul11 (xtime a3) ^^^ mul11 a3 ^^^ mul13 (xtime a3) ^^^ mul9 a3) := by
          ac_rfl
      _ = a1 := by rw [s0, p1, q2, r3]; simp
  congr 1
  · calc _ = (mul14 a0 ^^^ mul11 (xtime a0) ^^^ mul11 a0 ^^^ mul13 (xtime a0) ^^^ mul9 a0) ^^^
            (mul14 a1 ^^^ mul11 a1 ^^^ mul13 (xtime a1) ^^^ mul13 a1 ^^^ mul9 (xtime a1)) ^^^
            (mul14 (xtime a2) ^^^ mul11 a2 ^^^ mul13 a2 ^^^ mul9 (xtime a2) ^^^ mul9 a2) ^^^
            (mul14 (xtime a3) ^^^ mul14 a3 ^^^ mul11 (xtime a3) ^^^ mul13 a3 ^^^ mul9 a3) := by
          ac_rfl
      _ = a2 := by rw [r0, s1, p2, q3]; simp
  congr 1
  · calc _ = (mul14 (xtime a0) ^^^ mul14 a0 ^^^ mul11 (xtime a0) ^^^ mul13 a0 ^^^ mul9 a0) ^^^
            (mul14 a1 ^^^ mul11 (xtime a1) ^^^ mul11 a1 ^^^ mul13 (xtime a1) ^^^ mul9 a1) ^^^
            (mul14 a2 ^^^ mul11 a2 ^^^ mul13 (xtime a2) ^^^ mul13 a2 ^^^ mul9 (xtime a2)) ^^^
            (mul14 (xtime a3) ^^^ mul11 a3 ^^^ mul13 a3 ^^^ mul9 (xtime a3) ^^^ mul9 a3) := by
          ac_rfl
      _ = a3 := by rw [q0, r1, s2, p3]; simp

theorem isBytes_cons {a : Nat} {s : Bytes} : IsBytes (a :: s) ↔ a < 256 ∧ IsBytes s := by
  simp [IsBytes]

theorem isBytes_nil : IsBytes [] := by simp [IsBytes]

theorem isBytes_append {s t : Bytes} : IsBytes (s ++ t) ↔ IsBytes s ∧ IsBytes t := by
  simp only [IsBytes, List.mem_append]
  constructor
  · intro h; exact ⟨fun b hb => h b (Or.inl hb), fun b hb => h b (Or.inr hb)⟩
  · rintro ⟨h1, h2⟩ b (hb | hb)
    · exact h1 b hb
    · exact h2 b hb

theorem invMix_mix (s : Bytes) (hs : IsBytes s) : invMixColumns (mixColumns s) = s := by
  induction s using mixColumns.induct with
  | case1 a0 a1 a2 a3 rest ih =>
    simp only [isBytes_cons] at hs
    obtain ⟨h0, h1, h2, h3, hr⟩ := hs
    have h := invMix_mix_column a0 a1 a2 a3 h0 h1 h2 h3
    simp only [mixColumns, invMixColumns, List.cons.injEq, and_true] at h
    obtain ⟨e0, e1, e2, e3⟩ := h
    simp only [mixColumns, invMixColumns]
    rw [e0, e1, e2, e3, ih hr]
  | case2 s hne =>
    have e : mixColumns s = s := by
      unfold mixColumns
      split
      · exact absurd rfl (hne _ _ _ _ _)
      · rfl
    rw [e]
    unfold invMixColumns
    split
    · exact absurd rfl (hne _ _ _ _ _)
    · rfl

theorem mixColumns_length (s : Bytes) : (mixColumns s).length = s.length := by
  induction s using mixColumns.induct with
  | case1 a0 a1 a2 a3 rest ih => simp [mixColumns, ih]
  | case2 s hne =>
    unfold mixColumns
    split
    · exact absurd rfl (hne _ _ _ _ _)
    · rfl

theorem isBytes_mixColumns (s : Bytes) (hs : IsBytes s) : IsBytes (mixColumns s) := by
  induction s using mixColumns.induct with
  | case1 a0 a1 a2 a3 rest ih =>
    simp only [isBytes_cons] at hs
    obtain ⟨h0, h1, h2, h3, hr⟩ := hs
    simp only [mixColumns, isBytes_cons]
    have x0 := xtime_lt a0
    have x1 := xtime_lt a1
    have x2 := xtime_lt a2
    have x3 := xtime_lt a3
    refine ⟨?_, ?_, ?_, ?_, ih hr⟩ <;> repeat (first | assumption | apply xor_lt_256)
  | case2 s hne =>
    have e : mixColumns s = s := by
      unfold mixColumns
      split
      · exact absurd rfl (hne _ _ _ _ _)
      · rfl
    rw [e]; exact hs

theorem list_length_16 {s : Bytes} (h : s.length = 16) :
    ∃ s0 s1 s2 s3 s4 s5 s6 s7 s8 s9 s10 s11 s12 s13 s14 s15,
      s = [s0, s1, s2, s3, s4, s5, s6, s7, s8, s9, s10, s11, s12, s13, s14, s15] := by
  match s, h with
  | [s0, s1, s2, s3, s4, s5, s6, s7, s8, s9, s10, s11, s12, s13, s14, s15], _ =>
    exact ⟨s0, s1, s2, s3, s4, s5, s6, s7, s8, s9, s10, s11, s12, s13, s14, s15, rfl⟩

theorem invShift_shift (s : Bytes) : invShiftRows (shiftRows s) = s := by
  by_cases h : s.length = 16
  · obtain ⟨s0, s1, s2, s3, s4, s5, s6, s7, s8, s9, s10, s11, s12, s13, s14, s15, rfl⟩ :=
      list_length_16 h
    rfl
  · have e : shiftRows s = s := by
      unfold shiftRows
      split
      · simp at h
      · rfl
    rw [e]
    unfold invShiftRows
    split
    · simp at h
    · rfl

theorem subByte_lt (b : Nat) : subByte b < 256 := by
  unfold subByte
  rw [List.getD_eq_getElem?_getD, List.getD_eq_getElem?_getD]
  cases h : sboxTable[b / 16]? with
  | none => simp
  | some row =>
    simp only [Option.getD_some]
    cases h2 : row[b % 16]? with
    | none => simp
    | some x => exact sboxTable_lt row (List.getElem?_mem h) x (List.getElem?_mem h2)

theorem isBytes_subBytes (s : Bytes) : IsBytes (subBytes s) := by
  intro b hb
  simp only [subBytes, List.mem_map] at hb
  obtain ⟨a, _, rfl⟩ := hb
  exact subByte_lt a

theorem subBytes_length (s : Bytes) : (subBytes s).length = s.length := by
  simp [subBytes]

theorem invSub_subBytes (s : Bytes) (hs : IsBytes s) : invSubBytes (subBytes s) = s := by
  induction s with
  | nil => rfl
  | cons a t ih =>
    rw [isBytes_cons] at hs
    simp only [subBytes, invSubBytes, List.map_cons, List.map_map] at ih ⊢
    rw [invSub_sub a hs.1, ih hs.2]

theorem isBlock_shiftRows {s : Bytes} (hs : IsBlock s) : IsBlock (shiftRows s) := by
  obtain ⟨hl, hb⟩ := hs
  obtain ⟨s0, s1, s2, s3, s4, s5, s6, s7, s8, s9, s10, s11, s12, s13, s14, s15, rfl⟩ :=
    list_length_16 hl
  refine ⟨rfl, ?_⟩
  simp only [shiftRows, isBytes_cons] at hb ⊢
  tauto

theorem xorBytes_cancel (s k : Bytes) (h : s.length ≤ k.length) :
    xorBytes (xorBytes s k) k = s := by
  induction s generalizing k with
  | nil => simp [xorBytes]
  | cons a t ih =>
    cases k with
    | nil => simp at h
    | cons b u =>
      simp only [List.length_cons, Nat.add_le_add_iff_right] at h
      have := ih u h
      simp only [xorBytes, List.zipWith_cons_cons] at this ⊢
      rw [this, Nat.xor_assoc, Nat.xor_self, Nat.xor_zero]

theorem xorBytes_length (a b : Bytes) : (xorBytes a b).length = min a.length b.length := by
  simp [xorBytes]

theorem isBytes_xorBytes (a b : Bytes) (ha : IsBytes a) (hb : IsBytes b) :
    IsBytes (xorBytes a b) := by
  induction a generalizing b with
  | nil => simp [xorBytes, IsBytes]
  | cons x t ih =>
    cases b with
    | nil => simp [xorBytes, IsBytes]
    | cons y u =>
      rw [isBytes_cons] at ha hb
      simp only [xorBytes, List.zipWith_cons_cons, isBytes_cons]
      exact ⟨xor_lt_256 ha.1 hb.1, ih u ha.2 hb.2⟩

theorem isBlock_xorBytes {a b : Bytes} (ha : IsBlock a) (hb : IsBlock b) :
    IsBlock (xorBytes a b) :=
  ⟨by rw [xorBytes_length, ha.1, hb.1]; rfl, isBytes_xorBytes a b ha.2 hb.2⟩

theorem isBlock_addRoundKey {a b : Bytes} (ha : IsBlock a) (hb : IsBlock b) :
    IsBlock (addRoundKey a b) := isBlock_xorBytes ha hb

theorem addRoundKey_cancel {s k : Bytes} (hs : IsBlock s) (hk : IsBlock k) :
    addRoundKey (addRoundKey s k) k = s :=
  xorBytes_cancel s k (by rw [hs.1, hk.1])

/-- SubBytes followed by ShiftRows keeps a block a block. -/
theorem isBlock_shift_sub {s : Bytes} (hs : IsBlock s) : IsBlock (shiftRows (subBytes s)) :=
  isBlock_shiftRows ⟨by rw [subBytes_length, hs.1], isBytes_subBytes s⟩

theorem inv_shift_sub {s : Bytes} (hs : IsBlock s) :
    invSubBytes (invShiftRows (shiftRows (subBytes s))) = s := by
  rw [invShift_shift, invSub_subBytes s hs.2]

theorem isBlock_round {s k : Bytes} (hs : IsBlock s) (hk : IsBlock k) :
    IsBlock (addRoundKey (mixColumns (shiftRows (subBytes s))) k) := by
  have h1 := isBlock_shift_sub hs
  exact isBlock_addRoundKey ⟨by rw [mixColumns_length, h1.1], isBytes_mixColumns _ h1.2⟩ hk

theorem isBlock_rounds (ks : List Bytes) (hk : ∀ k ∈ ks, IsBlock k) (s : Bytes)
    (hs : IsBlock s) : IsBlock (rounds ks s) := by
  induction ks generalizing s with
  | nil => exact hs
  | cons k t ih =>
    simp only [rounds]
    exact ih (fun k hk1 => hk k (List.mem_cons_of_mem _ hk1)) _
      (isBlock_round hs (hk k (List.mem_cons_self _ _)))

theorem rounds_append (ks : List Bytes) (k s : Bytes) :
    rounds (ks ++ [k]) s = addRoundKey (mixColumns (shiftRows (subBytes (rounds ks s)))) k := by
  induction ks generalizing s with
  | nil => rfl
  | cons k1 t ih => exact ih _

theorem invRounds_rounds (ks : List Bytes) (hk : ∀ k ∈ ks, IsBlock k) (s : Bytes)
    (hs : IsBlock s) :
    invRounds ks.reverse (shiftRows (subBytes (rounds ks s))) = shiftRows (subBytes s) := by
  induction ks using List.reverseRecOn with
  | nil => rfl
  | append_singleton t k ih =>
    have hkt : ∀ k ∈ t, IsBlock k := fun k1 h1 => hk k1 (List.mem_append_left _ h1)
    have hkk : IsBlock k := hk k (List.mem_append_right _ (List.mem_singleton_self k))
    have hr := isBlock_rounds t hkt s hs
    have hm := isBlock_shift_sub hr
    rw [List.reverse_append, List.reverse_singleton, List.singleton_append, rounds_append]
    simp only [invRounds]
    rw [inv_shift_sub (isBlock_round hr hkk)]
    rw [addRoundKey_cancel ⟨by rw [mixColumns_length, hm.1], isBytes_mixColumns _ hm.2⟩ hkk,
      invMix_mix _ hm.2]
    exact ih hkt

theorem isBlock_encryptBlock (rks : List Bytes) (h2 : 2 ≤ rks.length)
    (hk : ∀ k ∈ rks, IsBlock k) (p : Bytes) (hp : IsBlock p) :
    IsBlock (encryptBlock rks p) := by
  match rks, h2, hk with
  | k0 :: ks, h2, hk =>
    have hne : ks ≠ [] := by
      intro h; subst h; simp at h2
    have hk0 : IsBlock k0 := hk k0 (List.mem_cons_self _ _)
    have hmid : ∀ k ∈ ks.dropLast, IsBlock k := fun k h =>
      hk k (List.mem_cons_of_mem _ (List.dropLast_subset ks h))
    have hlast : IsBlock (ks.getLastD []) := by
      rw [List.getLastD_eq_getLast?, List.getLast?_eq_getLast ks hne]
      exact hk _ (List.mem_cons_of_mem _ (List.getLast_mem hne))
    simp only [encryptBlock]
    exact isBlock_addRoundKey
      (isBlock_shift_sub (isBlock_rounds _ hmid _ (isBlock_addRoundKey hp hk0))) hlast

theorem decryptBlock_encryptBlock (rks : List Bytes) (h2 : 2 ≤ rks.length)
    (hk : ∀ k ∈ rks, IsBlock k) (p : Bytes) (hp : IsBlock p) :
    decryptBlock rks (encryptBlock rks p) = p := by
  match rks, h2, hk with
  | k0 :: ks, h2, hk =>
    have hne : ks ≠ [] := by
      intro h; subst h; simp at h2
    have hk0 : IsBlock k0 := hk k0 (List.mem_cons_self _ _)
    have hmid : ∀ k ∈ ks.dropLast, IsBlock k := fun k h =>
      hk k (List.mem_cons_of_mem _ (List.dropLast_subset ks h))
    have hlast : IsBlock (ks.getLastD []) := by
      rw [List.getLastD_eq_getLast?, List.getLast?_eq_getLast ks hne]
      exact hk _ (List.mem_cons_of_mem _ (List.getLast_mem hne))
    have h0 := isBlock_addRoundKey hp hk0
    have hr := isBlock_rounds _ hmid _ h0
    have hm := isBlock_shift_sub hr
    simp only [encryptBlock, decryptBlock]
    rw [addRoundKey_cancel hm hlast, invRounds_rounds _ hmid _ h0, inv_shift_sub h0,
      addRoundKey_cancel hp hk0]

theorem decodeMap_encodeChar : ∀ v < 64, decodeMap (encodeChar v) = some v := by decide

theorem decodeFrom_encode (bs : Bytes) (hb : IsBytes bs) (si : Nat) :
    decodeFrom (EncodeToString bs) si 0 0 = (bs, none) := by
  induction bs using EncodeToString.induct generalizing si with
  | case1 b0 b1 b2 rest ih =>
    simp only [isBytes_cons] at hb
    obtain ⟨h0, h1, h2, hr⟩ := hb
    simp only [EncodeToString, decodeFrom]
    rw [decodeMap_encodeChar _ (Nat.mod_lt _ (by decide)),
      decodeMap_encodeChar _ (Nat.mod_lt _ (by decide)),
      decodeMap_encodeChar _ (Nat.mod_lt _ (by decide)),
      decodeMap_encodeChar _ (Nat.mod_lt _ (by decide))]
    simp only [Nat.reduceEqDiff, ↓reduceIte, Nat.zero_add, Nat.zero_mul, ih hr]
    simp only [Nat.reduceAdd, ↓reduceIte, ih hr, Prod.mk.injEq, List.cons.injEq, and_true]
    refine ⟨?_, ?_, ?_⟩ <;> omega
  | case2 b0 b1 =>
    simp only [isBytes_cons] at hb
    obtain ⟨h0, h1, -⟩ := hb
    simp only [EncodeToString, decodeFrom]
    rw [decodeMap_encodeChar _ (Nat.mod_lt _ (by decide)),
      decodeMap_encodeChar _ (Nat.mod_lt _ (by decide)),
      decodeMap_encodeChar _ (Nat.mod_lt _ (by decide))]
    have e : decodeMap 61 = none := by decide
    simp [e, isNewline, afterPadding, skipNewlines]
    omega
  | case3 b0 =>
    simp only [isBytes_cons] at hb
    obtain ⟨h0, -⟩ := hb
    simp only [EncodeToString, decodeFrom]
    rw [decodeMap_encodeChar _ (Nat.mod_lt _ (by decide)),
      decodeMap_encodeChar _ (Nat.mod_lt _ (by decide))]
    have e : decodeMap 61 = none := by decide
    simp [e, isNewline, afterPadding, skipNewlines]
    omega
  | case4 => simp [EncodeToString, decodeFrom]

theorem pkcs5Pad_length (p : Bytes) :
    (pkcs5Pad p).length = p.length + (16 - p.length % 16) := by
  simp [pkcs5Pad]

theorem isBytes_pkcs5Pad (p : Bytes) (hp : IsBytes p) : IsBytes (pkcs5Pad p) := by
  intro b hb
  simp only [pkcs5Pad, List.mem_append, List.mem_replicate] at hb
  rcases hb with hb | ⟨_, rfl⟩
  · exact hp b hb
  · omega

theorem unpad_pad (p : Bytes) : PKCS5UnPadding (pkcs5Pad p) = Except.ok p := by
  have hlen := pkcs5Pad_length p
  have hlast : (pkcs5Pad p).getD ((pkcs5Pad p).length - 1) 0 = 16 - p.length % 16 := by
    rw [List.getD_eq_getElem?_getD, pkcs5Pad_length]
    unfold pkcs5Pad
    rw [List.getElem?_append_right (by omega), List.getElem?_replicate]
    have : p.length + (16 - p.length % 16) - 1 - p.length < 16 - p.length % 16 := by omega
    simp [this]
  have hidx : indexAt (pkcs5Pad p) (((pkcs5Pad p).length : Int) - 1)
      = Except.ok (16 - p.length % 16) := by
    unfold indexAt
    have h1 : ¬ ((((pkcs5Pad p).length : Int) - 1 < 0) ∨
        ((pkcs5Pad p).length : Int) ≤ ((pkcs5Pad p).length : Int) - 1) := by omega
    have h2 : (((pkcs5Pad p).length : Int) - 1).toNat = (pkcs5Pad p).length - 1 := by omega
    rw [if_neg h1, h2, hlast]
  have hslice : sliceTo (pkcs5Pad p) (((pkcs5Pad p).length : Int) - ((16 - p.length % 16 : Nat) : Int))
      = Except.ok p := by
    unfold sliceTo
    have h1 : ¬ ((((pkcs5Pad p).length : Int) - ((16 - p.length % 16 : Nat) : Int) < 0) ∨
        ((pkcs5Pad p).length : Int) <
          ((pkcs5Pad p).length : Int) - ((16 - p.length % 16 : Nat) : Int)) := by omega
    have h2 : (((pkcs5Pad p).length : Int) - ((16 - p.length % 16 : Nat) : Int)).toNat
        = p.length := by omega
    rw [if_neg h1, h2]
    unfold pkcs5Pad
    simp
  unfold PKCS5UnPadding
  simp only [hidx, hslice]

theorem isBytes_take {s : Bytes} (hs : IsBytes s) (n : Nat) : IsBytes (s.take n) :=
  fun b hb => hs b (List.mem_of_mem_take hb)

theorem isBytes_drop {s : Bytes} (hs : IsBytes s) (n : Nat) : IsBytes (s.drop n) :=
  fun b hb => hs b (List.mem_of_mem_drop hb)

theorem isBlock_take {s : Bytes} (hs : IsBytes s) (hl : 16 ≤ s.length) : IsBlock (s.take 16) :=
  ⟨by rw [List.length_take]; omega, isBytes_take hs 16⟩

/-- The CBC ciphertext of `n` blocks has `16 * n` bytes, all of them bytes. -/
theorem cbcEncryptBlocks_spec (rks : List Bytes) (h2 : 2 ≤ rks.length)
    (hk : ∀ k ∈ rks, IsBlock k) (n : Nat) (prev src : Bytes) (hprev : IsBlock prev)
    (hs : IsBytes src) (hl : 16 * n ≤ src.length) :
    (cbcEncryptBlocks rks n prev src).length = 16 * n ∧
      IsBytes (cbcEncryptBlocks rks n prev src) := by
  induction n generalizing prev src with
  | zero => simp [cbcEncryptBlocks, IsBytes]
  | succ m ih =>
    have hc := isBlock_encryptBlock rks h2 hk _
      (isBlock_xorBytes (isBlock_take hs (by omega)) hprev)
    have := ih _ (src.drop 16) hc (isBytes_drop hs 16) (by rw [List.length_drop]; omega)
    simp only [cbcEncryptBlocks, List.length_append, isBytes_append]
    exact ⟨by rw [hc.1, this.1]; omega, hc.2, this.2⟩

theorem cbcDecrypt_cbcEncrypt (rks : List Bytes) (h2 : 2 ≤ rks.length)
    (hk : ∀ k ∈ rks, IsBlock k) (n : Nat) (prev src : Bytes) (hprev : IsBlock prev)
    (hs : IsBytes src) (hl : 16 * n ≤ src.length) :
    cbcDecryptBlocks rks n prev (cbcEncryptBlocks rks n prev src) = src.take (16 * n) := by
  induction n generalizing prev src with
  | zero => simp [cbcDecryptBlocks]
  | succ m ih =>
    have ht := isBlock_take hs (show 16 ≤ src.length by omega)
    have hx := isBlock_xorBytes ht hprev
    have hc := isBlock_encryptBlock rks h2 hk _ hx
    simp only [cbcEncryptBlocks, cbcDecryptBlocks]
    rw [List.take_left' hc.1, List.drop_left' hc.1, decryptBlock_encryptBlock rks h2 hk _ hx,
      xorBytes_cancel _ _ (by rw [ht.1, hprev.1]),
      ih _ (src.drop 16) hc (isBytes_drop hs 16) (by rw [List.length_drop]; omega)]
    have e : 16 * (m + 1) = 16 + 16 * m := by omega
    rw [e, List.take_add]

set_option maxRecDepth 100000 in
theorem fixedKey_schedule :
    encryptionPassword.length = 32 ∧ IsBlock (encryptionPassword.take 16) ∧
      2 ≤ (expandKey encryptionPassword).length ∧
      ∀ k ∈ expandKey encryptionPassword, IsBlock k := by
  decide!

theorem decrypt_encrypt (p : Bytes) (hp : IsBytes p) :
    Decrypt (encrypt p) = Except.ok (p, none) := by
  obtain ⟨hlen, hiv, h2, hk⟩ := fixedKey_schedule
  have hpad := isBytes_pkcs5Pad p hp
  have hmul : 16 * ((pkcs5Pad p).length / 16) = (pkcs5Pad p).length := by
    rw [pkcs5Pad_length]; omega
  have hct := cbcEncryptBlocks_spec _ h2 hk ((pkcs5Pad p).length / 16) _ (pkcs5Pad p) hiv hpad
    (by omega)
  have hdec := cbcDecrypt_cbcEncrypt _ h2 hk ((pkcs5Pad p).length / 16) _ (pkcs5Pad p) hiv hpad
    (by omega)
  rw [hmul, List.take_length] at hdec
  have hnew : NewCipher encryptionPassword = Except.ok (expandKey encryptionPassword) := by
    simp [NewCipher, hlen]
  have haes : AesDecryptCBC (cbcEncryptBlocks (expandKey encryptionPassword)
      ((pkcs5Pad p).length / 16) (encryptionPassword.take 16) (pkcs5Pad p)) encryptionPassword
      = Except.ok (p, none) := by
    have hiv2 : sliceTo encryptionPassword 16 = Except.ok (encryptionPassword.take 16) := by
      simp [sliceTo, hlen]
    simp only [AesDecryptCBC, hnew, CryptBlocks, hct.1, hiv2]
    have e1 : 16 * ((pkcs5Pad p).length / 16) % 16 = 0 := by omega
    have e2 : 16 * ((pkcs5Pad p).length / 16) / 16 = (pkcs5Pad p).length / 16 := by omega
    simp [e1, e2, hdec, unpad_pad]
  simp only [Decrypt, encrypt, DecodeString, decodeFrom_encode _ hct.2, haes]

/-! ### Lengths through the inverse cipher -/

theorem invMixColumns_length (s : Bytes) : (invMixColumns s).length = s.length := by
  induction s using invMixColumns.induct with
  | case1 a0 a1 a2 a3 rest ih => simp [invMixColumns, ih]
  | case2 s hne =>
    unfold invMixColumns
    split
    · exact absurd rfl (hne _ _ _ _ _)
    · rfl

theorem invShiftRows_length (s : Bytes) : (invShiftRows s).length = s.length := by
  by_cases h : s.length = 16
  · obtain ⟨s0, s1, s2, s3, s4, s5, s6, s7, s8, s9, s10, s11, s12, s13, s14, s15, rfl⟩ :=
      list_length_16 h
    rfl
  · unfold invShiftRows
    split
    · simp at h
    · rfl

theorem invStep_length {s k : Bytes} (hs : s.length = 16) (hk : k.length = 16) :
    (addRoundKey (invSubBytes (invShiftRows s)) k).length = 16 := by
  simp [addRoundKey, xorBytes, invSubBytes, invShiftRows_length, hs, hk]

theorem invRounds_length (ks : List Bytes) (hk : ∀ k ∈ ks, k.length = 16) (s : Bytes)
    (hs : s.length = 16) : (invRounds ks s).length = 16 := by
  induction ks generalizing s with
  | nil => exact hs
  | cons k t ih =>
    simp only [invRounds]
    apply ih (fun k1 h1 => hk k1 (List.mem_cons_of_mem _ h1))
    rw [invMixColumns_length]
    exact invStep_length hs (hk k (List.mem_cons_self _ _))

theorem decryptBlock_length (rks : List Bytes) (h2 : 2 ≤ rks.length)
    (hk : ∀ k ∈ rks, k.length = 16) (c : Bytes) (hc : c.length = 16) :
    (decryptBlock rks c).length = 16 := by
  match rks, h2, hk with
  | k0 :: ks, h2, hk =>
    have hne : ks ≠ [] := by
      intro h; subst h; simp at h2
    have hlast : (ks.getLastD []).length = 16 := by
      rw [List.getLastD_eq_getLast?, List.getLast?_eq_getLast ks hne]
      exact hk _ (List.mem_cons_of_mem _ (List.getLast_mem hne))
    simp only [decryptBlock]
    apply invStep_length _ (hk k0 (List.mem_cons_self _ _))
    apply invRounds_length
    · intro k h
      rw [List.mem_reverse] at h
      exact hk k (List.mem_cons_of_mem _ (List.dropLast_subset ks h))
    · rw [addRoundKey, xorBytes, List.length_zipWith, hc, hlast]; rfl

theorem cbcDecryptBlocks_length (rks : List Bytes) (h2 : 2 ≤ rks.length)
    (hk : ∀ k ∈ rks, k.length = 16) (n : Nat) (prev src : Bytes) (hprev : prev.length = 16)
    (hl : 16 * n ≤ src.length) : (cbcDecryptBlocks rks n prev src).length = 16 * n := by
  induction n generalizing prev src with
  | zero => simp [cbcDecryptBlocks]
  | succ m ih =>
    have ht : (src.take 16).length = 16 := by rw [List.length_take]; omega
    simp only [cbcDecryptBlocks, List.length_append, xorBytes, List.length_zipWith]
    rw [decryptBlock_length rks h2 hk _ ht, hprev,
      ih _ (src.drop 16) ht (by rw [List.length_drop]; omega)]
    omega

/-- Under the fixed key the CBC plaintext is as long as a whole-block ciphertext. -/
theorem cbcPlaintext_length (ct : Bytes) (hfull : ct.length % 16 = 0) :
    (cbcPlaintext ct).length = ct.length := by
  obtain ⟨_, hiv, h2, hk⟩ := fixedKey_schedule
  unfold cbcPlaintext
  rw [cbcDecryptBlocks_length _ h2 (fun k h => (hk k h).1) _ _ _ hiv.1 (by omega)]
  omega

/-! ### What the decryption functions return -/

theorem str_empty : str "" = [] := rfl

theorem str_sentinel : str "-" = [45] := by decide

theorem newCipher_fixedKey :
    NewCipher encryptionPassword = Except.ok (expandKey encryptionPassword) := by
  simp [NewCipher, fixedKey_schedule.1]

theorem sliceTo_fixedKey :
    sliceTo encryptionPassword 16 = Except.ok (encryptionPassword.take 16) := by
  simp [sliceTo, fixedKey_schedule.1]

/-- The function `AesDecryptCBC` under the fixed key: a panic on a partial block, else
whatever `PKCS5UnPadding` makes of the CBC plaintext, never an error value. -/
theorem aesDecryptCBC_fixedKey (ct : Bytes) :
    AesDecryptCBC ct encryptionPassword =
      if ct.length % 16 ≠ 0 then Except.error GoPanic.inputNotFullBlocks
      else match PKCS5UnPadding (cbcPlaintext ct) with
        | Except.error p => Except.error p
        | Except.ok origData => Except.ok (origData, none) := by
  simp only [AesDecryptCBC, newCipher_fixedKey, sliceTo_fixedKey, CryptBlocks, cbcPlaintext]
  by_cases h : ct.length % 16 ≠ 0
  · simp only [if_pos h]
  · simp only [if_neg h]

theorem unpad_of_le (pt : Bytes) (hne : pt ≠ [])
    (hN : pt.getD (pt.length - 1) 0 ≤ pt.length) :
    PKCS5UnPadding pt = Except.ok (pt.take (pt.length - pt.getD (pt.length - 1) 0)) := by
  have hpos : 0 < pt.length := List.length_pos.mpr hne
  have hidx : indexAt pt ((pt.length : Int) - 1) = Except.ok (pt.getD (pt.length - 1) 0) := by
    unfold indexAt
    have h1 : ¬ (((pt.length : Int) - 1 < 0) ∨ (pt.length : Int) ≤ (pt.length : Int) - 1) := by
      omega
    have h2 : ((pt.length : Int) - 1).toNat = pt.length - 1 := by omega
    rw [if_neg h1, h2]
  unfold PKCS5UnPadding
  simp only [hidx]
  unfold sliceTo
  have h1 : ¬ (((pt.length : Int) - ((pt.getD (pt.length - 1) 0 : Nat) : Int) < 0) ∨
      (pt.length : Int) < (pt.length : Int) - ((pt.getD (pt.length - 1) 0 : Nat) : Int)) := by
    omega
  have h2 : ((pt.length : Int) - ((pt.getD (pt.length - 1) 0 : Nat) : Int)).toNat
      = pt.length - pt.getD (pt.length - 1) 0 := by omega
  rw [if_neg h1, h2]

theorem unpad_of_gt (pt : Bytes) (hne : pt ≠ [])
    (hN : pt.length < pt.getD (pt.length - 1) 0) :
    PKCS5UnPadding pt = Except.error GoPanic.sliceBoundsOutOfRange := by
  have hpos : 0 < pt.length := List.length_pos.mpr hne
  have hidx : indexAt pt ((pt.length : Int) - 1) = Except.ok (pt.getD (pt.length - 1) 0) := by
    unfold indexAt
    have h1 : ¬ (((pt.length : Int) - 1 < 0) ∨ (pt.length : Int) ≤ (pt.length : Int) - 1) := by
      omega
    have h2 : ((pt.length : Int) - 1).toNat = pt.length - 1 := by omega
    rw [if_neg h1, h2]
  unfold PKCS5UnPadding
  simp only [hidx]
  unfold sliceTo
  have h1 : ((pt.length : Int) - ((pt.getD (pt.length - 1) 0 : Nat) : Int) < 0) ∨
      (pt.length : Int) < (pt.length : Int) - ((pt.getD (pt.length - 1) 0 : Nat) : Int) := by
    omega
  rw [if_pos h1]

theorem unpad_nil : PKCS5UnPadding [] = Except.error GoPanic.indexOutOfRange := by
  decide

/-! ### Which strings the decoder accepts -/

theorem isAlphabet_iff (c : Nat) : isAlphabet c = (decodeMap c).isSome := by
  unfold isAlphabet decodeMap
  by_cases h1 : 65 ≤ c ∧ c ≤ 90
  · simp [h1]
  · by_cases h2 : 97 ≤ c ∧ c ≤ 122
    · simp [h1, h2]
    · by_cases h3 : 48 ≤ c ∧ c ≤ 57
      · simp [h1, h2, h3]
      · by_cases h4 : c = 43
        · simp [h4]
        · by_cases h5 : c = 47
          · simp [h5]
          · simp only [if_neg h1, if_neg h2, if_neg h3, if_neg h4, if_neg h5]
            simp only [not_and, not_le] at h1 h2 h3
            simp only [Option.isSome_none, Bool.or_eq_false_iff, Bool.and_eq_false_iff,
              decide_eq_false_iff_not, not_le, beq_eq_false_iff_ne, ne_eq]
            omega

theorem isAlphabet_not_newline {c : Nat} (h : isAlphabet c = true) : isNewline c = false := by
  unfold isAlphabet at h
  unfold isNewline
  simp only [Bool.or_eq_true, Bool.and_eq_true, decide_eq_true_eq, beq_iff_eq] at h
  simp only [Bool.or_eq_false_iff, decide_eq_false_iff_not]
  omega

theorem skipNewlines_strip (s : Bytes) (si : Nat) :
    stripNewlines (skipNewlines s si).1 = stripNewlines s ∧
    ((skipNewlines s si).1 = [] ∨
      ∃ c r, (skipNewlines s si).1 = c :: r ∧ isNewline c = false) := by
  induction s generalizing si with
  | nil => simp [skipNewlines]
  | cons c rest ih =>
    by_cases h : isNewline c = true
    · have := ih (si + 1)
      simp only [skipNewlines, h, if_true, stripNewlines, List.filter_cons, Bool.not_true]
      simp only [stripNewlines] at this
      simpa using this
    · simp only [Bool.not_eq_true] at h
      simp [skipNewlines, h]

theorem stripNewlines_cons_of_not_newline {c : Nat} (r : Bytes) (h : isNewline c = false) :
    stripNewlines (c :: r) = c :: stripNewlines r := by
  simp [stripNewlines, h]

theorem stripNewlines_cons_of_newline {c : Nat} (r : Bytes) (h : isNewline c = true) :
    stripNewlines (c :: r) = stripNewlines r := by
  simp [stripNewlines, h]

theorem afterPadding_eq_none_iff (rest : Bytes) (si : Nat) :
    afterPadding rest si = none ↔ stripNewlines rest = [] := by
  obtain ⟨h1, h2⟩ := skipNewlines_strip rest si
  unfold afterPadding
  rcases h2 with h2 | ⟨c, r, h2, hc⟩
  · cases hs : skipNewlines rest si with
    | mk l n =>
      rw [hs] at h1 h2
      simp only at h1 h2
      subst h2
      rw [← h1]
      simp [stripNewlines]
  · cases hs : skipNewlines rest si with
    | mk l n =>
      rw [hs] at h1 h2
      simp only at h1 h2
      subst h2
      rw [← h1, stripNewlines_cons_of_not_newline r hc]
      simp

theorem decodeFrom_ok_iff (s : Bytes) :
    ∀ si j acc, j ≤ 3 →
      ((decodeFrom s si j acc).2 = none ↔ acceptsFrom j (stripNewlines s) = true) := by
  induction s with
  | nil =>
    intro si j acc _
    by_cases hj : j = 0
    · simp [decodeFrom, stripNewlines, acceptsFrom, hj]
    · simp [decodeFrom, stripNewlines, acceptsFrom, hj]
  | cons c rest ih =>
    intro si j acc hj
    unfold decodeFrom
    cases hm : decodeMap c with
    | some v =>
      have ha : isAlphabet c = true := by rw [isAlphabet_iff, hm]; rfl
      rw [stripNewlines_cons_of_not_newline rest (isAlphabet_not_newline ha)]
      simp only [acceptsFrom, ha, if_true]
      by_cases h3 : j = 3
      · simp only [h3, if_true]
        exact ih (si + 1) 0 0 (by omega)
      · simp only [h3, if_false]
        exact ih (si + 1) (j + 1) (acc * 64 + v) (by omega)
    | none =>
      have ha : isAlphabet c = false := by rw [isAlphabet_iff, hm]; rfl
      simp only
      by_cases hn : isNewline c = true
      · rw [if_pos hn, stripNewlines_cons_of_newline rest hn]
        exact ih (si + 1) j acc hj
      · rw [if_neg hn]
        simp only [Bool.not_eq_true] at hn
        rw [stripNewlines_cons_of_not_newline rest hn]
        simp only [acceptsFrom, ha, Bool.false_eq_true, if_false]
        by_cases hc : c = 61
        · subst hc
          simp only [ne_eq, not_true_eq_false, if_false, if_true]
          by_cases hj2 : j < 2
          · have e2 : (j == 2) = false := by simp; omega
            have e3 : (j == 3) = false := by simp; omega
            simp [hj2, e2, e3]
          · rw [if_neg hj2]
            by_cases hj3 : j = 2
            · subst hj3
              simp only [if_true]
              obtain ⟨h1, h2⟩ := skipNewlines_strip rest (si + 1)
              cases hs : skipNewlines rest (si + 1) with
              | mk l n =>
                rw [hs] at h1 h2
                simp only at h1 h2
                rcases h2 with h2 | ⟨c1, r, h2, hc1⟩
                · subst h2
                  rw [← h1]
                  simp [stripNewlines]
                · subst h2
                  rw [← h1, stripNewlines_cons_of_not_newline r hc1]
                  simp only
                  by_cases hc61 : c1 = 61
                  · subst hc61
                    simp [afterPadding_eq_none_iff]
                  · simp [hc61]
            · have hj3' : j = 3 := by omega
              subst hj3'
              simp [afterPadding_eq_none_iff]
        · simp [hc]

theorem acceptsFrom_short (j : Nat) (hj : j ≠ 0) : acceptsFrom j [] = false := by
  simp [acceptsFrom, hj]

theorem isAlphabet_pad : isAlphabet 61 = false := by decide

theorem acceptsFrom_zero (t : Bytes) : acceptsFrom 0 t = isPaddedBase64 t := by
  induction t using isPaddedBase64.induct with
  | case1 => rfl
  | case2 a b c d rest ih =>
    simp only [acceptsFrom, isPaddedBase64]
    cases ha : isAlphabet a
    · by_cases h : a = 61 <;> simp [h]
    · cases hb : isAlphabet b
      · by_cases h : b = 61 <;> simp [h]
      · cases hc : isAlphabet c
        · by_cases h : c = 61
          · subst h
            by_cases h2 : d = 61 <;> cases rest <;> simp [h2]
          · simp [h]
        · have hc61 : c ≠ 61 := by
            intro h; subst h; rw [isAlphabet_pad] at hc; cases hc
          cases hd : isAlphabet d
          · by_cases h : d = 61
            · subst h
              cases rest <;> simp [hc61]
            · simp [h, hc61]
          · have hd61 : d ≠ 61 := by
              intro h; subst h; rw [isAlphabet_pad] at hd; cases hd
            have e1 : (d == 61) = false := by simpa using hd61
            have e2 : (c == 61) = false := by simpa using hc61
            simp [ih, e1, e2]
  | case3 t h1 h2 =>
    have hp : isPaddedBase64 t = false := by
      unfold isPaddedBase64
      split
      · exact absurd rfl h1
      · exact absurd rfl (h2 _ _ _ _ _)
      · rfl
    rw [hp]
    match t, h1, h2 with
    | [a], _, _ =>
      simp only [acceptsFrom]
      cases isAlphabet a <;> by_cases h : a = 61 <;> simp [h]
    | [a, b], _, _ =>
      simp only [acceptsFrom]
      cases isAlphabet a <;> cases isAlphabet b <;> by_cases h : a = 61 <;>
        by_cases h' : b = 61 <;> simp [h, h']
    | [a, b, c], _, _ =>
      simp only [acceptsFrom]
      cases isAlphabet a <;> cases isAlphabet b <;> cases isAlphabet c <;>
        by_cases h : a = 61 <;> by_cases h' : b = 61 <;> by_cases h'' : c = 61 <;>
        simp [h, h', h'']
    | a :: b :: c :: d :: rest, _, h2 => exact absurd rfl (h2 _ _ _ _ _)

/-- The decoder of `base64.StdEncoding` reports no error exactly on the strings that,
carriage returns and line feeds removed, are padded base64 text. -/
theorem decodeString_ok_iff (s : Bytes) :
    (DecodeString s).2 = none ↔ isPaddedBase64 (stripNewlines s) = true := by
  unfold DecodeString
  rw [decodeFrom_ok_iff s 0 0 0 (by omega), acceptsFrom_zero]

set_option maxRecDepth 100000 in
/-- Line breaks inside a ciphertext are skipped by the decoder, not reported: the secret
is decrypted as without them. -/
theorem mustDecrypt_newline_example :
    (DecodeString (str "+kHFlv9J\nhGGwzhiiEt9QjQ==\n")).2 = none ∧
    MustDecrypt (str "+kHFlv9J\nhGGwzhiiEt9QjQ==\n") = Except.ok (str "hunter2") := by
  decide!

/-! ### Key material -/

theorem hexLower_length (d : Bytes) : (hexLower d).length = 2 * d.length := by
  induction d with
  | nil => rfl
  | cons b t ih => simp only [hexLower, List.length_cons, ih]; omega

theorem hexDigit_range (n : Nat) (h : n < 16) :
    (48 ≤ hexDigit n ∧ hexDigit n ≤ 57) ∨ (97 ≤ hexDigit n ∧ hexDigit n ≤ 102) := by
  unfold hexDigit
  split <;> omega

theorem hexLower_digits (d : Bytes) :
    ∀ c ∈ hexLower d, (48 ≤ c ∧ c ≤ 57) ∨ (97 ≤ c ∧ c ≤ 102) := by
  induction d with
  | nil => simp [hexLower]
  | cons b t ih =>
    intro c hc
    simp only [hexLower, List.mem_cons] at hc
    rcases hc with rfl | rfl | hc
    · exact hexDigit_range _ (Nat.mod_lt _ (by decide))
    · exact hexDigit_range _ (Nat.mod_lt _ (by decide))
    · exact ih c hc

theorem leBytes_length (n x : Nat) : (leBytes n x).length = n := by
  induction n generalizing x with
  | zero => rfl
  | succ m ih => simp [leBytes, ih]

/-- The digest of `md5.Sum` has 16 bytes for every message. -/
theorem md5Sum_length (msg : Bytes) : (md5Sum msg).length = 16 := by
  simp [md5Sum, leBytes_length]

theorem chunks_length (k n : Nat) (bs : Bytes) : (chunks k n bs).length = n := by
  induction n generalizing bs with
  | zero => rfl
  | succ m ih => simp [chunks, ih]

/-- C10: whatever 16-byte digest `md5.Sum` returns, its `%x` rendering is 32 lower-case
hexadecimal digits; as a key it is accepted by `aes.NewCipher` as an AES-256 key (15 round
keys), so `AesDecryptCBC` never takes its error branch; the slice `key[:blockSize]` with
block size 16 is in bounds and is the first 16 bytes of the key, and that slice is the
initialization vector `AesDecryptCBC` decrypts with. -/
theorem key_material (digest : Bytes) (hd : digest.length = 16) :
    (hexLower digest).length = 32 ∧
    (∀ c ∈ hexLower digest, (48 ≤ c ∧ c ≤ 57) ∨ (97 ≤ c ∧ c ≤ 102)) ∧
    NewCipher (hexLower digest) = Except.ok (expandKey (hexLower digest)) ∧
    (expandKey (hexLower digest)).length = 15 ∧
    (∀ encrypted out err,
      AesDecryptCBC encrypted (hexLower digest) ≠ Except.ok (out, some err)) ∧
    sliceTo (hexLower digest) 16 = Except.ok ((hexLower digest).take 16) ∧
    ((hexLower digest).take 16).length = 16 ∧
    (hexLower digest).take 16 ++ (hexLower digest).drop 16 = hexLower digest ∧
    (∀ encrypted, AesDecryptCBC encrypted (hexLower digest) =
      match CryptBlocks (expandKey (hexLower digest)) ((hexLower digest).take 16) encrypted with
      | Except.error p => Except.error p
      | Except.ok origData =>
        match PKCS5UnPadding origData with
        | Except.error p => Except.error p
        | Except.ok origData => Except.ok (origData, none)) := by
  have hlen : (hexLower digest).length = 32 := by rw [hexLower_length, hd]
  have hnew : NewCipher (hexLower digest) = Except.ok (expandKey (hexLower digest)) := by
    simp [NewCipher, hlen]
  have hiv : sliceTo (hexLower digest) 16 = Except.ok ((hexLower digest).take 16) := by
    simp [sliceTo, hlen]
  have haes : ∀ encrypted, AesDecryptCBC encrypted (hexLower digest) =
      match CryptBlocks (expandKey (hexLower digest)) ((hexLower digest).take 16) encrypted with
      | Except.error p => Except.error p
      | Except.ok origData =>
        match PKCS5UnPadding origData with
        | Except.error p => Except.error p
        | Except.ok origData => Except.ok (origData, none) := by
    intro encrypted
    simp only [AesDecryptCBC, hnew, hiv]
  refine ⟨hlen, hexLower_digits digest, hnew, ?_, ?_, hiv, ?_, List.take_append_drop _ _, haes⟩
  · simp [expandKey, chunks_length, hlen]
  · intro encrypted out err h
    rw [haes] at h
    cases h1 : CryptBlocks (expandKey (hexLower digest)) ((hexLower digest).take 16) encrypted with
    | error p => rw [h1] at h; cases h
    | ok o =>
      rw [h1] at h
      simp only at h
      cases h2 : PKCS5UnPadding o with
      | error p => rw [h2] at h; cases h
      | ok o2 => rw [h2] at h; cases h
  · rw [List.length_take, hlen]; rfl

set_option maxRecDepth 100000 in
/-- The key of the program: the digest of the passphrase has 16 bytes, and the statement
of `key_material` holds of `encryptionPassword`, which is `d2ca731a9a458f0b2247df829ec5b7da`. -/
theorem key_material_witness :
    encryptionPassword = str "d2ca731a9a458f0b2247df829ec5b7da" ∧
    (md5Sum (str "next-terminal")).length = 16 ∧
    (hexLower (md5Sum (str "next-terminal"))).length = 32 ∧
    (∀ c ∈ hexLower (md5Sum (str "next-terminal")), (48 ≤ c ∧ c ≤ 57) ∨ (97 ≤ c ∧ c ≤ 102)) ∧
    NewCipher (hexLower (md5Sum (str "next-terminal")))
      = Except.ok (expandKey (hexLower (md5Sum (str "next-terminal")))) ∧
    (expandKey (hexLower (md5Sum (str "next-terminal")))).length = 15 ∧
    (∀ encrypted out err, AesDecryptCBC encrypted (hexLower (md5Sum (str "next-terminal")))
      ≠ Except.ok (out, some err)) ∧
    sliceTo (hexLower (md5Sum (str "next-terminal"))) 16
      = Except.ok ((hexLower (md5Sum (str "next-terminal"))).take 16) ∧
    ((hexLower (md5Sum (str "next-terminal"))).take 16).length = 16 ∧
    (hexLower (md5Sum (str "next-terminal"))).take 16
      ++ (hexLower (md5Sum (str "next-terminal"))).drop 16
      = hexLower (md5Sum (str "next-terminal")) ∧
    (∀ encrypted, AesDecryptCBC encrypted (hexLower (md5Sum (str "next-terminal"))) =
      match CryptBlocks (expandKey (hexLower (md5Sum (str "next-terminal"))))
        ((hexLower (md5Sum (str "next-terminal"))).take 16) encrypted with
      | Except.error p => Except.error p
      | Except.ok origData =>
        match PKCS5UnPadding origData with
        | Except.error p => Except.error p
        | Except.ok origData => Except.ok (origData, none)) :=
  ⟨by decide!, md5Sum_length _, key_material _ (md5Sum_length _)⟩

/-! ### The two entry points -/

/-- C6: `MustDecrypt` returns the empty string for the empty string and for the sentinel
`-`, and does so whatever `Decrypt` would do: the result is the same for every callee, so
neither base64 decoding nor the cipher is reached. -/
theorem mustDecrypt_empty_or_sentinel :
    MustDecrypt (str "") = Except.ok (str "") ∧ MustDecrypt (str "-") = Except.ok (str "") ∧
    ∀ decryptFn : Bytes → Except GoPanic (Bytes × Option GoError),
      MustDecryptWith decryptFn (str "") = Except.ok (str "") ∧
      MustDecryptWith decryptFn (str "-") = Except.ok (str "") := by
  refine ⟨?_, ?_, fun f => ⟨?_, ?_⟩⟩ <;> simp [MustDecrypt, MustDecryptWith]

/-- The strict entry point on a string the decoder rejects. -/
theorem decrypt_of_decode_error (s : Bytes) (e : GoError) (h : (DecodeString s).2 = some e) :
    Decrypt s = Except.ok ([], some e) := by
  unfold Decrypt
  cases hd : DecodeString s with
  | mk d err =>
    rw [hd] at h
    simp only at h
    subst h
    rfl

theorem decodeString_error_of_invalid (s : Bytes)
    (h : isPaddedBase64 (stripNewlines s) = false) : ∃ e, (DecodeString s).2 = some e := by
  cases hd : (DecodeString s).2 with
  | some e => exact ⟨e, rfl⟩
  | none =>
    rw [(decodeString_ok_iff s).mp hd] at h
    cases h

/-- C8: on every string that is not valid standard base64 (padded base64 text, in which
the decoder of `base64.StdEncoding` skips carriage returns and line feeds), the decoder
reports an error, and `Decrypt` returns that error, which is not nil, together with the
empty string. -/
theorem decrypt_invalid_base64 (s : Bytes) (h : isPaddedBase64 (stripNewlines s) = false) :
    ∃ e, (DecodeString s).2 = some e ∧ Decrypt s = Except.ok (str "", some e) := by
  obtain ⟨e, he⟩ := decodeString_error_of_invalid s h
  refine ⟨e, he, ?_⟩
  rw [str_empty]
  exact decrypt_of_decode_error s e he

/-- An input with an illegal character: the error is reported at its offset. -/
theorem decrypt_invalid_base64_witness :
    isPaddedBase64 (stripNewlines (str "bad!input")) = false ∧
    (∃ e, (DecodeString (str "bad!input")).2 = some e ∧
      Decrypt (str "bad!input") = Except.ok (str "", some e)) ∧
    Decrypt (str "bad!input") = Except.ok (str "", some (GoError.corruptInput 3)) :=
  ⟨by decide, decrypt_invalid_base64 (str "bad!input") (by decide), by decide⟩

/-- C7: on every string that is not valid standard base64 (padded base64 text, in which
the decoder of `base64.StdEncoding` skips carriage returns and line feeds), `MustDecrypt`
returns the empty string, and returns it normally: no panic. -/
theorem mustDecrypt_invalid_base64 (s : Bytes)
    (h : isPaddedBase64 (stripNewlines s) = false) : MustDecrypt s = Except.ok (str "") := by
  obtain ⟨e, he⟩ := decodeString_error_of_invalid s h
  unfold MustDecrypt MustDecryptWith
  split
  · rfl
  · rw [decrypt_of_decode_error s e he]; rfl

/-- An unpadded input: rejected by the decoder, the empty string from `MustDecrypt`. -/
theorem mustDecrypt_invalid_base64_witness :
    isPaddedBase64 (stripNewlines (str "aGVsbG8")) = false ∧
    MustDecrypt (str "aGVsbG8") = Except.ok (str "") :=
  ⟨by decide, mustDecrypt_invalid_base64 (str "aGVsbG8") (by decide)⟩

/-! ### Round trip -/

theorem encodeToString_length (ct : Bytes) (h : 3 ≤ ct.length) :
    4 ≤ (EncodeToString ct).length := by
  match ct, h with
  | b0 :: b1 :: b2 :: rest, _ => simp [EncodeToString]

theorem encrypt_length (p : Bytes) (hp : IsBytes p) : 4 ≤ (encrypt p).length := by
  obtain ⟨_, hiv, h2, hk⟩ := fixedKey_schedule
  have hlen := pkcs5Pad_length p
  have hct := cbcEncryptBlocks_spec _ h2 hk ((pkcs5Pad p).length / 16)
    (encryptionPassword.take 16) (pkcs5Pad p) hiv (isBytes_pkcs5Pad p hp) (by omega)
  apply encodeToString_length
  rw [hct.1]
  omega

/-- C3: for every byte string `p`, the documented encryption of `p` (padding to whole
blocks with `N = 16 - len mod 16` bytes of value `N`, AES-CBC under the fixed key with the
first 16 key bytes as initialization vector, standard padded base64) is decrypted back:
`Decrypt` returns `p` with a nil error and `MustDecrypt` returns `p`. -/
theorem decrypt_encrypt_roundtrip (p : Bytes) (hp : IsBytes p) :
    Decrypt (encrypt p) = Except.ok (p, none) ∧ MustDecrypt (encrypt p) = Except.ok p := by
  have hd := decrypt_encrypt p hp
  refine ⟨hd, ?_⟩
  have hl := encrypt_length p hp
  unfold MustDecrypt MustDecryptWith
  rw [str_empty, str_sentinel]
  have hne : ¬ (encrypt p = [] ∨ encrypt p = [45]) := by
    rintro (h | h) <;> rw [h] at hl <;> simp at hl
  rw [if_neg hne, hd]

set_option maxRecDepth 100000 in
/-- The round trip at the plaintext `hunter2`, whose encryption is the string the
reference tool `openssl enc -aes-256-cbc` produces for this key and vector. -/
theorem decrypt_encrypt_roundtrip_witness :
    IsBytes (str "hunter2") ∧
    encrypt (str "hunter2") = str "+kHFlv9JhGGwzhiiEt9QjQ==" ∧
    Decrypt (encrypt (str "hunter2")) = Except.ok (str "hunter2", none) ∧
    MustDecrypt (encrypt (str "hunter2")) = Except.ok (str "hunter2") :=
  ⟨by decide, by decide!, decrypt_encrypt_roundtrip (str "hunter2") (by decide)⟩

set_option maxRecDepth 100000 in
/-- Known answers of the reference tool over one and two blocks of ciphertext. -/
theorem mustDecrypt_known_answers :
    MustDecrypt (str "ih10l4eLvx5FCrrsPylgwQ==") = Except.ok (str "") ∧
    MustDecrypt (str "VmX43O89x8CN0ZvpZsvsuWgLjhLmwTv1dWCd8Nhwd2U=")
      = Except.ok (str "0123456789abcdef") := by
  decide!

/-! ### Padding bytes out of range -/

/-- When the decoder accepts the input, the outcome is that of `AesDecryptCBC`. -/
theorem decrypt_of_decoded (s ct : Bytes) (hdec : DecodeString s = (ct, none)) :
    Decrypt s =
      if ct.length % 16 ≠ 0 then Except.error GoPanic.inputNotFullBlocks
      else match PKCS5UnPadding (cbcPlaintext ct) with
        | Except.error p => Except.error p
        | Except.ok origData => Except.ok (origData, none) := by
  unfold Decrypt
  rw [hdec]
  simp only [aesDecryptCBC_fixedKey]
  by_cases h : ct.length % 16 ≠ 0
  · simp only [if_pos h]
  · simp only [if_neg h]
    cases PKCS5UnPadding (cbcPlaintext ct) <;> rfl

theorem mustDecrypt_of_decoded (s ct : Bytes) (hdec : DecodeString s = (ct, none))
    (hne : ct ≠ []) :
    MustDecrypt s =
      match Decrypt s with
      | Except.error p => Except.error p
      | Except.ok (decrypt, _) => Except.ok decrypt := by
  unfold MustDecrypt MustDecryptWith
  rw [str_empty, str_sentinel]
  have hs : ¬ (s = [] ∨ s = [45]) := by
    rintro (h | h)
    · subst h
      have : DecodeString [] = ([], none) := by decide
      rw [this] at hdec
      exact hne (Prod.mk.inj hdec).1.symm
    · subst h
      have : DecodeString [45] = ([], some (GoError.corruptInput 0)) := by decide
      rw [this] at hdec
      cases (Prod.mk.inj hdec).2
  rw [if_neg hs]

/-- C1, as the code has it: no range check is made on the padding byte.  For every input
whose base64-decoded bytes are a non-empty whole number of 16-byte blocks, and whose CBC
plaintext has a last byte `N` of at most the plaintext length, `Decrypt` returns the
plaintext without its last `N` bytes and a nil error, and `MustDecrypt` returns the same
string; `N = 0` and `N > 16` are treated like any other value. -/
theorem decrypt_padding_unchecked (s ct : Bytes) (hdec : DecodeString s = (ct, none))
    (hne : ct ≠ []) (hfull : ct.length % 16 = 0)
    (hN : (cbcPlaintext ct).getD (ct.length - 1) 0 ≤ ct.length) :
    Decrypt s = Except.ok
      ((cbcPlaintext ct).take (ct.length - (cbcPlaintext ct).getD (ct.length - 1) 0), none) ∧
    MustDecrypt s = Except.ok
      ((cbcPlaintext ct).take (ct.length - (cbcPlaintext ct).getD (ct.length - 1) 0)) := by
  have hlen := cbcPlaintext_length ct hfull
  have hpt : cbcPlaintext ct ≠ [] := by
    intro h
    rw [h] at hlen
    exact hne (List.length_eq_zero.mp hlen.symm)
  have hun := unpad_of_le (cbcPlaintext ct) hpt (by rw [hlen]; exact hN)
  rw [hlen] at hun
  have hd : Decrypt s = Except.ok
      ((cbcPlaintext ct).take (ct.length - (cbcPlaintext ct).getD (ct.length - 1) 0), none) := by
    rw [decrypt_of_decoded s ct hdec, if_neg (by omega), hun]
  exact ⟨hd, by rw [mustDecrypt_of_decoded s ct hdec hne, hd]⟩

set_option maxRecDepth 100000 in
/-- The block `08 00 .. 00` decrypts, under the fixed key and vector, to a plaintext that
ends in the byte 0. -/
theorem cbcPlaintext_pad_zero :
    cbcPlaintext (8 :: List.replicate 15 0)
      = [198, 38, 127, 250, 54, 37, 255, 252, 3, 133, 217, 226, 142, 104, 126, 0] := by
  decide!

theorem decodeString_pad_zero :
    DecodeString (str "CAAAAAAAAAAAAAAAAAAAAA==") = (8 :: List.replicate 15 0, none) := by
  decide

theorem pad_zero_in_length :
    (cbcPlaintext (8 :: List.replicate 15 0)).getD ((8 :: List.replicate 15 0 : Bytes).length - 1) 0
      ≤ (8 :: List.replicate 15 0 : Bytes).length := by
  rw [cbcPlaintext_pad_zero]
  decide

/-- One block whose plaintext ends in the byte 0: nothing is removed, and the 16 bytes
come back as the secret. -/
theorem decrypt_padding_unchecked_witness :
    DecodeString (str "CAAAAAAAAAAAAAAAAAAAAA==") = (8 :: List.replicate 15 0, none) ∧
    (8 :: List.replicate 15 0 : Bytes) ≠ [] ∧
    (8 :: List.replicate 15 0 : Bytes).length % 16 = 0 ∧
    (cbcPlaintext (8 :: List.replicate 15 0)).getD ((8 :: List.replicate 15 0 : Bytes).length - 1) 0
      ≤ (8 :: List.replicate 15 0 : Bytes).length ∧
    Decrypt (str "CAAAAAAAAAAAAAAAAAAAAA==") = Except.ok
      ((cbcPlaintext (8 :: List.replicate 15 0)).take
        ((8 :: List.replicate 15 0 : Bytes).length -
          (cbcPlaintext (8 :: List.replicate 15 0)).getD
            ((8 :: List.replicate 15 0 : Bytes).length - 1) 0), none) ∧
    MustDecrypt (str "CAAAAAAAAAAAAAAAAAAAAA==") = Except.ok
      ((cbcPlaintext (8 :: List.replicate 15 0)).take
        ((8 :: List.replicate 15 0 : Bytes).length -
          (cbcPlaintext (8 :: List.replicate 15 0)).getD
            ((8 :: List.replicate 15 0 : Bytes).length - 1) 0)) :=
  ⟨decodeString_pad_zero, by decide, by decide, pad_zero_in_length,
    decrypt_padding_unchecked (str "CAAAAAAAAAAAAAAAAAAAAA==") (8 :: List.replicate 15 0)
      decodeString_pad_zero (by decide) (by decide) pad_zero_in_length⟩

/-- C1 fails at the input `CAAAAAAAAAAAAAAAAAAAAA==`: it decodes to one block whose
plaintext ends in the padding byte 0, which is out of range, yet `Decrypt` reports no
error and `MustDecrypt` returns the 16 plaintext bytes, not the empty string. -/
theorem mustDecrypt_pad_zero_not_rejected :
    DecodeString (str "CAAAAAAAAAAAAAAAAAAAAA==") = (8 :: List.replicate 15 0, none) ∧
    cbcPlaintext (8 :: List.replicate 15 0)
      = [198, 38, 127, 250, 54, 37, 255, 252, 3, 133, 217, 226, 142, 104, 126, 0] ∧
    Decrypt (str "CAAAAAAAAAAAAAAAAAAAAA==") = Except.ok
      ([198, 38, 127, 250, 54, 37, 255, 252, 3, 133, 217, 226, 142, 104, 126, 0], none) ∧
    MustDecrypt (str "CAAAAAAAAAAAAAAAAAAAAA==") = Except.ok
      [198, 38, 127, 250, 54, 37, 255, 252, 3, 133, 217, 226, 142, 104, 126, 0] ∧
    MustDecrypt (str "CAAAAAAAAAAAAAAAAAAAAA==") ≠ Except.ok (str "") := by
  have hd : Decrypt (str "CAAAAAAAAAAAAAAAAAAAAA==") = Except.ok
      ([198, 38, 127, 250, 54, 37, 255, 252, 3, 133, 217, 226, 142, 104, 126, 0], none) := by
    rw [decrypt_of_decoded _ _ decodeString_pad_zero, cbcPlaintext_pad_zero]
    decide
  have hm : MustDecrypt (str "CAAAAAAAAAAAAAAAAAAAAA==") = Except.ok
      [198, 38, 127, 250, 54, 37, 255, 252, 3, 133, 217, 226, 142, 104, 126, 0] := by
    rw [mustDecrypt_of_decoded _ _ decodeString_pad_zero (by decide), hd]
  refine ⟨decodeString_pad_zero, cbcPlaintext_pad_zero, hd, hm, ?_⟩
  rw [hm]
  decide

set_option maxRecDepth 100000 in
/-- Further inputs with a padding byte out of range: a plaintext of 32 bytes ending in 17
loses 17 bytes; a plaintext of 16 bytes ending in 39 makes `MustDecrypt` panic in the slice
expression; an input decoding to no bytes at all makes it panic in the index expression;
an input decoding to a partial block makes `CryptBlocks` panic. -/
theorem mustDecrypt_pad_out_of_range_outcomes :
    MustDecrypt (str "AAAAAAAAAAAAAAAAAAAAdgAAAAAAAAAAAAAAAAAAAAA=") = Except.ok
      [78, 21, 233, 185, 127, 172, 79, 116, 191, 192, 24, 90, 138, 254, 246] ∧
    MustDecrypt (str "AQAAAAAAAAAAAAAAAAAAAA==")
      = Except.error GoPanic.sliceBoundsOutOfRange ∧
    MustDecrypt [10] = Except.error GoPanic.indexOutOfRange ∧
    Decrypt (str "") = Except.error GoPanic.indexOutOfRange ∧
    MustDecrypt (str "QQ==") = Except.error GoPanic.inputNotFullBlocks := by
  decide!

/-! ### Maps -/

theorem mapGet_mapSet_self {V : Type} (m : GoMap V) (k : Bytes) (v : V) :
    mapGet (mapSet m k v) k = some v := by
  induction m with
  | nil => simp [mapSet, mapGet]
  | cons e t ih =>
    obtain ⟨k1, v1⟩ := e
    by_cases h : k1 = k
    · simp [mapSet, mapGet, h]
    · simp [mapSet, mapGet, h, ih]

theorem mapGet_mapSet_ne {V : Type} (m : GoMap V) (k k2 : Bytes) (v : V) (hne : k ≠ k2) :
    mapGet (mapSet m k v) k2 = mapGet m k2 := by
  induction m with
  | nil => simp [mapSet, mapGet, hne]
  | cons e t ih =>
    obtain ⟨k1, v1⟩ := e
    by_cases h : k1 = k
    · subst h
      simp [mapSet, mapGet, hne]
    · by_cases h2 : k1 = k2
      · subst h2
        simp [mapSet, mapGet, h]
      · simp [mapSet, mapGet, h, h2, ih]

theorem mem_mapKeys_mapSet {V : Type} (m : GoMap V) (k k2 : Bytes) (v : V) :
    k2 ∈ mapKeys (mapSet m k v) ↔ k2 = k ∨ k2 ∈ mapKeys m := by
  induction m with
  | nil => simp [mapSet, mapKeys]
  | cons e t ih =>
    obtain ⟨k1, v1⟩ := e
    by_cases h : k1 = k
    · subst h
      simp [mapSet, mapKeys]
    · simp only [mapKeys] at ih
      simp only [mapSet, h, if_false, mapKeys, List.map_cons, List.mem_cons, ih]
      tauto

theorem mapGet_eq_none_iff {V : Type} (m : GoMap V) (k : Bytes) :
    mapGet m k = none ↔ k ∉ mapKeys m := by
  induction m with
  | nil => simp [mapGet, mapKeys]
  | cons e t ih =>
    obtain ⟨k1, v1⟩ := e
    by_cases h : k1 = k
    · simp [mapGet, mapKeys, h]
    · simp only [mapKeys] at ih
      simp only [mapGet, h, if_false, ih, mapKeys, List.map_cons, List.mem_cons, not_or]
      constructor
      · intro h1; exact ⟨fun h2 => h h2.symm, h1⟩
      · intro h1; exact h1.2

theorem nodup_mapKeys_mapSet {V : Type} (m : GoMap V) (k : Bytes) (v : V)
    (hm : (mapKeys m).Nodup) : (mapKeys (mapSet m k v)).Nodup := by
  induction m with
  | nil => simp [mapSet, mapKeys]
  | cons e t ih =>
    obtain ⟨k1, v1⟩ := e
    simp only [mapKeys, List.map_cons, List.nodup_cons] at hm
    by_cases h : k1 = k
    · simp only [mapSet, h, if_true, mapKeys, List.map_cons, List.nodup_cons]
      rw [h] at hm
      exact hm
    · simp only [mapKeys] at ih
      simp only [mapSet, h, if_false, mapKeys, List.map_cons, List.nodup_cons]
      refine ⟨fun hc => ?_, ih hm.2⟩
      rcases (mem_mapKeys_mapSet t k k1 v).mp hc with hc | hc
      · exact h hc
      · exact hm.1 hc

/-! ### The attribute map -/

/-- The loop of `findAssetAttrMapByAssetId` from a given map. -/
theorem attrFold_keys {S : Schema} (attrs : List AssetAttribute) (m0 : GoMap (AnyValue S))
    (k : Bytes) :
    k ∈ mapKeys (attrs.foldl (fun attrMap attr => mapSet attrMap attr.Name
      (AnyValue.text attr.Value)) m0) ↔ k ∈ mapKeys m0 ∨ ∃ a ∈ attrs, a.Name = k := by
  induction attrs generalizing m0 with
  | nil => simp
  | cons a t ih =>
    simp only [List.foldl_cons, ih, mem_mapKeys_mapSet, List.mem_cons, exists_eq_or_imp]
    constructor
    · rintro ((h | h) | h)
      · exact Or.inr (Or.inl h.symm)
      · exact Or.inl h
      · exact Or.inr (Or.inr h)
    · rintro (h | h | h)
      · exact Or.inl (Or.inr h)
      · exact Or.inl (Or.inl h.symm)
      · exact Or.inr h

theorem attrFold_nodup {S : Schema} (attrs : List AssetAttribute) (m0 : GoMap (AnyValue S))
    (h0 : (mapKeys m0).Nodup) :
    (mapKeys (attrs.foldl (fun attrMap attr => mapSet attrMap attr.Name
      (AnyValue.text attr.Value)) m0)).Nodup := by
  induction attrs generalizing m0 with
  | nil => exact h0
  | cons a t ih => exact ih _ (nodup_mapKeys_mapSet m0 _ _ h0)

theorem attrFold_get_absent {S : Schema} (attrs : List AssetAttribute)
    (m0 : GoMap (AnyValue S)) (k : Bytes) (h : ∀ a ∈ attrs, a.Name ≠ k) :
    mapGet (attrs.foldl (fun attrMap attr => mapSet attrMap attr.Name
      (AnyValue.text attr.Value)) m0) k = mapGet m0 k := by
  induction attrs generalizing m0 with
  | nil => rfl
  | cons a t ih =>
    rw [List.foldl_cons, ih _ (fun b hb => h b (List.mem_cons_of_mem _ hb)),
      mapGet_mapSet_ne _ _ _ _ (h a (List.mem_cons_self _ _))]

theorem attrFold_get_last {S : Schema} (l1 l2 : List AssetAttribute) (a : AssetAttribute)
    (m0 : GoMap (AnyValue S)) (h : ∀ b ∈ l2, b.Name ≠ a.Name) :
    mapGet ((l1 ++ a :: l2).foldl (fun attrMap attr => mapSet attrMap attr.Name
      (AnyValue.text attr.Value)) m0) a.Name = some (AnyValue.text a.Value) := by
  rw [List.foldl_append, List.foldl_cons, attrFold_get_absent l2 _ _ h, mapGet_mapSet_self]

/-- C5: when the attribute query succeeds, `findAssetAttrMapByAssetId` returns a map,
free of duplicate keys, whose keys are exactly the names occurring in the query result and
whose value at a name is the value of the last attribute in query order with that name. -/
theorem findAssetAttrMap_last_wins {S : Schema} (db : DB S) (assetId : Bytes)
    (attrs : List AssetAttribute) (h : db.assetAttributes assetId = Except.ok attrs) :
    ∃ m : GoMap (AnyValue S), findAssetAttrMapByAssetId db assetId = Except.ok m ∧
      (mapKeys m).Nodup ∧
      (∀ k, k ∈ mapKeys m ↔ ∃ a ∈ attrs, a.Name = k) ∧
      (∀ l1 a l2, attrs = l1 ++ a :: l2 → (∀ b ∈ l2, b.Name ≠ a.Name) →
        mapGet m a.Name = some (AnyValue.text a.Value)) := by
  refine ⟨attrs.foldl (fun attrMap attr => mapSet attrMap attr.Name
    (AnyValue.text attr.Value)) [], by simp only [findAssetAttrMapByAssetId, h], ?_, ?_, ?_⟩
  · exact attrFold_nodup attrs [] (by simp [mapKeys])
  · intro k
    rw [attrFold_keys]
    simp [mapKeys]
  · intro l1 a l2 he hl
    subst he
    exact attrFold_get_last l1 l2 a [] hl

/-- Two attributes named `port`: the later value is the one in the map. -/
theorem findAssetAttrMap_last_wins_witness :
    sampleDBTwoPorts.assetAttributes (str "a1") = Except.ok sampleAttributes ∧
    ∃ m : GoMap (AnyValue sampleSchema),
      findAssetAttrMapByAssetId sampleDBTwoPorts (str "a1") = Except.ok m ∧
      (mapKeys m).Nodup ∧
      (∀ k, k ∈ mapKeys m ↔ ∃ a ∈ sampleAttributes, a.Name = k) ∧
      (∀ l1 a l2, sampleAttributes = l1 ++ a :: l2 → (∀ b ∈ l2, b.Name ≠ a.Name) →
        mapGet m a.Name = some (AnyValue.text a.Value)) :=
  ⟨rfl, findAssetAttrMap_last_wins sampleDBTwoPorts (str "a1") sampleAttributes rfl⟩

/-- The map built from `sampleAttributes`: `port` holds the later value `2200`. -/
theorem findAssetAttrMap_sample :
    findAssetAttrMapByAssetId sampleDBTwoPorts (str "a1") = Except.ok
      [(str "port", AnyValue.text (str "2200")), (str "host", AnyValue.text (str "h"))] := by
  rfl

/-! ### The merge of an asset with its attributes -/

theorem rangeFold_get {S : Schema} (A : GoMap (AnyValue S)) (ks : List Bytes)
    (m0 : GoMap (AnyValue S)) (k : Bytes) :
    mapGet (ks.foldl (fun m key => mapSet m key ((mapGet A key).getD AnyValue.null)) m0) k =
      if k ∈ ks then some ((mapGet A k).getD AnyValue.null) else mapGet m0 k := by
  induction ks generalizing m0 with
  | nil => simp
  | cons key t ih =>
    rw [List.foldl_cons, ih]
    by_cases h1 : k ∈ t
    · simp [h1]
    · by_cases h2 : key = k
      · subst h2
        simp [h1, mapGet_mapSet_self]
      · have h3 : ¬ k = key := fun h => h2 h.symm
        simp [h1, h3, mapGet_mapSet_ne _ _ _ _ h2]

theorem rangeFold_keys {S : Schema} (A : GoMap (AnyValue S)) (ks : List Bytes)
    (m0 : GoMap (AnyValue S)) (k : Bytes) :
    k ∈ mapKeys (ks.foldl (fun m key => mapSet m key ((mapGet A key).getD AnyValue.null)) m0)
      ↔ k ∈ ks ∨ k ∈ mapKeys m0 := by
  induction ks generalizing m0 with
  | nil => simp
  | cons key t ih =>
    rw [List.foldl_cons, ih, mem_mapKeys_mapSet, List.mem_cons]
    tauto

/-- The merge loop satisfies the merge law whenever the `range` loop visits every key of
the attribute map. -/
theorem mergeAsset_isMerge {S : Schema} (env : Env S) (asset : Asset S)
    (A : GoMap (AnyValue S)) (hperm : (env.rangeOrder A).Perm (mapKeys A)) :
    IsMerge (env.StructToMap asset) A (mergeAsset env asset A)
      (env.Format asset.Created (str "2006-01-02 15:04:05")) := by
  constructor
  · intro k
    unfold mergeAsset
    by_cases hc : k = str "created"
    · subst hc
      simp [mapGet_mapSet_self]
    · have hc2 : str "created" ≠ k := fun h => hc h.symm
      simp only [mapGet_mapSet_ne _ _ _ _ hc2, rangeFold_get, if_neg hc, hperm.mem_iff]
      by_cases hk : k ∈ mapKeys A
      · rw [if_pos hk]
        cases hg : mapGet A k with
        | none => exact absurd hk ((mapGet_eq_none_iff A k).mp hg)
        | some v => rfl
      · rw [if_neg hk, (mapGet_eq_none_iff A k).mpr hk]
  · intro k
    unfold mergeAsset
    simp only [mem_mapKeys_mapSet, rangeFold_keys, hperm.mem_iff]

theorem mergeAsset_no_overrides {S : Schema} (env : Env S) (asset : Asset S)
    (hperm : (env.rangeOrder ([] : GoMap (AnyValue S))).Perm (mapKeys ([] : GoMap (AnyValue S)))) :
    mergeAsset env asset [] = mapSet (env.StructToMap asset) (str "created")
      (AnyValue.text (env.Format asset.Created (str "2006-01-02 15:04:05"))) := by
  have h : env.rangeOrder ([] : GoMap (AnyValue S)) = [] := by
    have := hperm
    simp only [mapKeys, List.map_nil] at this
    exact List.perm_nil.mp this
  simp only [mergeAsset, h, List.foldl_nil]

/-! ### Inversion of the loops and of export -/

theorem decryptAsset_ok {S : Schema} (a asset : Asset S) (h : decryptAsset a = Except.ok asset) :
    asset.ID = a.ID ∧ asset.Created = a.Created ∧ asset.fields = a.fields ∧
    MustDecrypt a.Password = Except.ok asset.Password ∧
    MustDecrypt a.PrivateKey = Except.ok asset.PrivateKey ∧
    MustDecrypt a.Passphrase = Except.ok asset.Passphrase := by
  unfold decryptAsset at h
  cases h1 : MustDecrypt a.Password with
  | error p => rw [h1] at h; cases h
  | ok pw =>
    cases h2 : MustDecrypt a.PrivateKey with
    | error p => rw [h1, h2] at h; cases h
    | ok pk =>
      cases h3 : MustDecrypt a.Passphrase with
      | error p => rw [h1, h2, h3] at h; cases h
      | ok pp =>
        rw [h1, h2, h3] at h
        cases h
        exact ⟨rfl, rfl, rfl, rfl, rfl, rfl⟩

theorem exportAssets_ok {S : Schema} (env : Env S) (db : DB S) (assets : List (Asset S))
    (maps : List (GoMap (AnyValue S)))
    (h : exportAssets env db assets = Except.ok (Except.ok maps)) :
    List.Forall₂ (fun a M => ∃ asset A, decryptAsset a = Except.ok asset ∧
      findAssetAttrMapByAssetId db asset.ID = Except.ok A ∧ M = mergeAsset env asset A)
      assets maps := by
  induction assets generalizing maps with
  | nil =>
    simp only [exportAssets] at h
    cases h
    exact List.Forall₂.nil
  | cons a rest ih =>
    unfold exportAssets at h
    cases h1 : decryptAsset a with
    | error p => rw [h1] at h; cases h
    | ok asset =>
      rw [h1] at h
      simp only at h
      cases h2 : findAssetAttrMapByAssetId db asset.ID with
      | error e => rw [h2] at h; cases h
      | ok A =>
        rw [h2] at h
        simp only at h
        cases h3 : exportAssets env db rest with
        | error p => rw [h3] at h; cases h
        | ok r =>
          rw [h3] at h
          cases r with
          | error e => cases h
          | ok ms =>
            cases h
            exact List.Forall₂.cons ⟨asset, A, h1, h2, rfl⟩ (ih ms h3)

/-- When `export` gets as far as assembling the backup, every query succeeded and the
backup holds the query results, processed. -/
theorem exportBackup_inr {S : Schema} (env : Env S) (db : DB S) (b : Backup S)
    (h : exportBackup env db = Except.ok (Sum.inr b)) :
    ∃ users userGroups userGroups1 storages strategies jobs accessGateways commands
      credentials credentials1 assets assetMaps,
      db.users = Except.ok users ∧ db.userGroups = Except.ok userGroups ∧
      loadMembers db userGroups = Except.ok userGroups1 ∧
      db.storages = Except.ok storages ∧ db.strategies = Except.ok strategies ∧
      db.jobs = Except.ok jobs ∧ db.accessGateways = Except.ok accessGateways ∧
      db.commands = Except.ok commands ∧ db.credentials = Except.ok credentials ∧
      decryptCredentials credentials = Except.ok credentials1 ∧
      db.assets = Except.ok assets ∧
      exportAssets env db assets = Except.ok (Except.ok assetMaps) ∧
      b = { Users := users.map (fun u => { u with Password := str "" })
            UserGroups := userGroups1
            Storages := storages
            Strategies := strategies
            AccessSecurities := []
            Jobs := jobs
            AccessGateways := accessGateways
            Commands := commands
            Credentials := credentials1
            Assets := assetMaps } := by
  unfold exportBackup at h
  simp only at h
  cases h1 : db.users with
  | error e => rw [h1] at h; cases h
  | ok users =>
  rw [h1] at h; simp only at h
  cases h2 : db.userGroups with
  | error e => rw [h2] at h; cases h
  | ok userGroups =>
  rw [h2] at h; simp only at h
  cases h3 : loadMembers db userGroups with
  | error e => rw [h3] at h; cases h
  | ok userGroups1 =>
  rw [h3] at h; simp only at h
  cases h4 : db.storages with
  | error e => rw [h4] at h; cases h
  | ok storages =>
  rw [h4] at h; simp only at h
  cases h5 : db.strategies with
  | error e => rw [h5] at h; cases h
  | ok strategies =>
  rw [h5] at h; simp only at h
  cases h6 : db.jobs with
  | error e => rw [h6] at h; cases h
  | ok jobs =>
  rw [h6] at h; simp only at h
  cases h7 : db.accessGateways with
  | error e => rw [h7] at h; cases h
  | ok accessGateways =>
  rw [h7] at h; simp only at h
  cases h8 : db.commands with
  | error e => rw [h8] at h; cases h
  | ok commands =>
  rw [h8] at h; simp only at h
  cases h9 : db.credentials with
  | error e => rw [h9] at h; cases h
  | ok credentials =>
  rw [h9] at h; simp only at h
  cases h10 : decryptCredentials credentials with
  | error e => rw [h10] at h; cases h
  | ok credentials1 =>
  rw [h10] at h; simp only at h
  cases h11 : db.assets with
  | error e => rw [h11] at h; cases h
  | ok assets =>
  rw [h11] at h; simp only at h
  cases h12 : exportAssets env db assets with
  | error e => rw [h12] at h; cases h
  | ok r =>
  rw [h12] at h
  cases r with
  | error e => cases h
  | ok assetMaps =>
  simp only [Except.ok.injEq, Sum.inr.injEq] at h
  exact ⟨users, userGroups, userGroups1, storages, strategies, jobs, accessGateways,
    commands, credentials, credentials1, assets, assetMaps, rfl, rfl, h3, rfl, rfl, rfl, rfl,
    rfl, rfl, h10, rfl, h12, h.symm⟩

/-- A run of `export` that returns nil after writing the file assembled a backup and
wrote its encoding. -/
theorem exportRun_written {S : Schema} (env : Env S) (db : DB S) (data : Bytes)
    (h : exportRun env db = Except.ok { err := none, writes := [(str "backup.json", data)] }) :
    ∃ b, exportBackup env db = Except.ok (Sum.inr b) ∧
      env.MarshalIndent b = Except.ok data ∧ env.WriteFile (str "backup.json") data = none := by
  unfold exportRun at h
  cases h1 : exportBackup env db with
  | error p => rw [h1] at h; cases h
  | ok r =>
    rw [h1] at h
    cases r with
    | inl e => simp at h
    | inr b =>
      simp only at h
      cases h2 : env.MarshalIndent b with
      | error e => rw [h2] at h; simp at h
      | ok indent =>
        rw [h2] at h
        simp only at h
        cases h3 : env.WriteFile (str "backup.json") indent with
        | some e => rw [h3] at h; simp at h
        | none =>
          rw [h3] at h
          simp only [Except.ok.injEq, ExportResult.mk.injEq, List.cons.injEq, Prod.mk.injEq,
            true_and, and_true] at h
          subst h
          exact ⟨b, rfl, h2, h3⟩

/-! ### Properties of export -/

set_option maxRecDepth 100000 in
/-- The run of `export` on the sample data store: nil, and one file written. -/
theorem exportRun_sample :
    exportRun sampleEnv sampleDB
      = Except.ok { err := none, writes := [(str "backup.json", str "hunter2")] } := by
  decide!

/-- C4: in every run of `export` that writes the backup, the record of each asset is the
merge of the asset's field map `B = StructToMap(asset)` (the asset with its secrets
decrypted) and of its attribute map `A`: at the key `created` it holds the creation time
formatted with the layout `2006-01-02 15:04:05`, at any other key the attribute value when
`A` has the key and the field of `B` otherwise, and its keys are those of `B`, those of `A`
and `created`; with no attributes it is `B` with the key `created` set.  The `range` loop
is assumed to visit each key of a map once, in any order. -/
theorem export_merge_law {S : Schema} (env : Env S) (db : DB S) (data : Bytes)
    (hrange : ∀ m, (env.rangeOrder m).Perm (mapKeys m))
    (hrun : exportRun env db
      = Except.ok { err := none, writes := [(str "backup.json", data)] }) :
    ∃ b assets, exportBackup env db = Except.ok (Sum.inr b) ∧
      env.MarshalIndent b = Except.ok data ∧ db.assets = Except.ok assets ∧
      List.Forall₂ (fun a M => ∃ asset A, decryptAsset a = Except.ok asset ∧
        findAssetAttrMapByAssetId db a.ID = Except.ok A ∧
        IsMerge (env.StructToMap asset) A M
          (env.Format a.Created (str "2006-01-02 15:04:05")) ∧
        (A = [] → M = mapSet (env.StructToMap asset) (str "created")
          (AnyValue.text (env.Format a.Created (str "2006-01-02 15:04:05")))))
        assets b.Assets := by
  obtain ⟨b, hb, hm, _⟩ := exportRun_written env db data hrun
  obtain ⟨users, userGroups, userGroups1, storages, strategies, jobs, accessGateways,
    commands, credentials, credentials1, assets, assetMaps, -, -, -, -, -, -, -, -, -, -,
    hassets, hmaps, rfl⟩ := exportBackup_inr env db b hb
  refine ⟨_, assets, hb, hm, hassets, ?_⟩
  refine List.Forall₂.imp ?_ (exportAssets_ok env db assets assetMaps hmaps)
  rintro a M ⟨asset, A, hdec, hfind, rfl⟩
  obtain ⟨hid, hcr, -⟩ := decryptAsset_ok a asset hdec
  rw [hid] at hfind
  refine ⟨asset, A, hdec, hfind, ?_, ?_⟩
  · rw [← hcr]
    exact mergeAsset_isMerge env asset A (hrange A)
  · intro hA
    subst hA
    rw [← hcr]
    exact mergeAsset_no_overrides env asset (hrange [])

/-- The merge law on the sample data store, whose asset has the field `port = 22` and the
attribute `port = 2222`. -/
theorem export_merge_law_witness :
    (∀ m, (sampleEnv.rangeOrder m).Perm (mapKeys m)) ∧
    exportRun sampleEnv sampleDB
      = Except.ok { err := none, writes := [(str "backup.json", str "hunter2")] } ∧
    ∃ b assets, exportBackup sampleEnv sampleDB = Except.ok (Sum.inr b) ∧
      sampleEnv.MarshalIndent b = Except.ok (str "hunter2") ∧
      sampleDB.assets = Except.ok assets ∧
      List.Forall₂ (fun a M => ∃ asset A, decryptAsset a = Except.ok asset ∧
        findAssetAttrMapByAssetId sampleDB a.ID = Except.ok A ∧
        IsMerge (sampleEnv.StructToMap asset) A M
          (sampleEnv.Format a.Created (str "2006-01-02 15:04:05")) ∧
        (A = [] → M = mapSet (sampleEnv.StructToMap asset) (str "created")
          (AnyValue.text (sampleEnv.Format a.Created (str "2006-01-02 15:04:05")))))
        assets b.Assets :=
  ⟨fun m => List.reverse_perm (mapKeys m), exportRun_sample,
    export_merge_law sampleEnv sampleDB (str "hunter2")
      (fun m => List.reverse_perm (mapKeys m)) exportRun_sample⟩

/-- C9: in every run of `export` that writes the backup, the users of the backup are the
users read, in the same order and number, each with an empty password and all other
fields unchanged. -/
theorem export_clears_user_passwords {S : Schema} (env : Env S) (db : DB S) (data : Bytes)
    (hrun : exportRun env db
      = Except.ok { err := none, writes := [(str "backup.json", data)] }) :
    ∃ b users, exportBackup env db = Except.ok (Sum.inr b) ∧
      env.MarshalIndent b = Except.ok data ∧ db.users = Except.ok users ∧
      b.Users = users.map (fun u => { u with Password := str "" }) ∧
      b.Users.length = users.length ∧
      (∀ u ∈ b.Users, u.Password = str "") ∧
      List.Forall₂ (fun u v => v.Password = str "" ∧ v.fields = u.fields) users b.Users := by
  obtain ⟨b, hb, hm, _⟩ := exportRun_written env db data hrun
  obtain ⟨users, userGroups, userGroups1, storages, strategies, jobs, accessGateways,
    commands, credentials, credentials1, assets, assetMaps, husers, -, -, -, -, -, -, -, -,
    -, -, -, rfl⟩ := exportBackup_inr env db b hb
  refine ⟨_, users, hb, hm, husers, rfl, by simp, ?_, ?_⟩
  · intro u hu
    simp only [List.mem_map] at hu
    obtain ⟨u0, _, rfl⟩ := hu
    rfl
  · simp only
    clear husers hb hm hrun
    induction users with
    | nil => exact List.Forall₂.nil
    | cons u t ih => exact List.Forall₂.cons ⟨rfl, rfl⟩ ih

/-- The sample data store, whose user has the password `secret`. -/
theorem export_clears_user_passwords_witness :
    exportRun sampleEnv sampleDB
      = Except.ok { err := none, writes := [(str "backup.json", str "hunter2")] } ∧
    ∃ b users, exportBackup sampleEnv sampleDB = Except.ok (Sum.inr b) ∧
      sampleEnv.MarshalIndent b = Except.ok (str "hunter2") ∧
      sampleDB.users = Except.ok users ∧
      b.Users = users.map (fun u => { u with Password := str "" }) ∧
      b.Users.length = users.length ∧
      (∀ u ∈ b.Users, u.Password = str "") ∧
      List.Forall₂ (fun u v => v.Password = str "" ∧ v.fields = u.fields) users b.Users :=
  ⟨exportRun_sample,
    export_clears_user_passwords sampleEnv sampleDB (str "hunter2") exportRun_sample⟩

/-- C2, as the code has it: when the query for the users fails, `export` executes
`return err` while the result variable `err` is still nil, so it returns nil, `main` does
not end in `log.Fatalf`, and no file is written. -/
theorem export_users_failure_returns_nil {S : Schema} (env : Env S) (db : DB S) (e : GoError)
    (h : db.users = Except.error e) :
    exportRun env db = Except.ok { err := none, writes := [] } ∧
    mainReportsFatal env db = Except.ok false := by
  have hb : exportBackup env db = Except.ok (Sum.inl none) := by
    simp only [exportBackup, h]
  have hr : exportRun env db = Except.ok { err := none, writes := [] } := by
    simp only [exportRun, hb]
  exact ⟨hr, by simp only [mainReportsFatal, hr]; rfl⟩

/-- The sample data store with a failing query for the users. -/
theorem export_users_failure_returns_nil_witness :
    sampleDBUsersFail.users = Except.error (GoError.other 1) ∧
    exportRun sampleEnv sampleDBUsersFail = Except.ok { err := none, writes := [] } ∧
    mainReportsFatal sampleEnv sampleDBUsersFail = Except.ok false :=
  ⟨rfl, export_users_failure_returns_nil sampleEnv sampleDBUsersFail (GoError.other 1) rfl⟩

/-! ### Which failing reads are reported -/

theorem loadMembers_ok {S : Schema} (db : DB S)
    (hm : ∀ id, ∃ l, db.userGroupMembers id = Except.ok l) (gs : List (UserGroup S)) :
    ∃ gs1, loadMembers db gs = Except.ok gs1 := by
  induction gs with
  | nil => exact ⟨[], rfl⟩
  | cons g t ih =>
    obtain ⟨l, hl⟩ := hm g.ID
    obtain ⟨t1, ht⟩ := ih
    exact ⟨{ g with Members := l } :: t1, by simp only [loadMembers, hl, ht]⟩

theorem exportAssets_no_error {S : Schema} (env : Env S) (db : DB S)
    (ha : ∀ id, ∃ l, db.assetAttributes id = Except.ok l) (assets : List (Asset S)) :
    ∀ e, exportAssets env db assets ≠ Except.ok (Except.error e) := by
  induction assets with
  | nil => intro e h; simp [exportAssets] at h
  | cons a t ih =>
    intro e h
    unfold exportAssets at h
    cases h1 : decryptAsset a with
    | error p => rw [h1] at h; cases h
    | ok asset =>
      obtain ⟨l, hl⟩ := ha asset.ID
      rw [h1] at h
      simp only [findAssetAttrMapByAssetId, hl] at h
      cases h3 : exportAssets env db t with
      | error p => rw [h3] at h; cases h
      | ok r =>
        cases r with
        | error e1 => exact ih e1 h3
        | ok ms => rw [h3] at h; cases h

/-- Of the eleven kinds of read, only the member query and the attribute query hand
their error to the caller: when those two never fail, every early return of `export`
returns nil, whichever of the nine `Find` queries failed. -/
theorem exportBackup_find_failure_nil {S : Schema} (env : Env S) (db : DB S)
    (hm : ∀ id, ∃ l, db.userGroupMembers id = Except.ok l)
    (ha : ∀ id, ∃ l, db.assetAttributes id = Except.ok l) (v : Option GoError)
    (h : exportBackup env db = Except.ok (Sum.inl v)) : v = none := by
  unfold exportBackup at h
  simp only at h
  cases h1 : db.users with
  | error e => rw [h1] at h; cases h; rfl
  | ok users =>
  rw [h1] at h; simp only at h
  cases h2 : db.userGroups with
  | error e => rw [h2] at h; cases h; rfl
  | ok userGroups =>
  rw [h2] at h; simp only at h
  obtain ⟨userGroups1, h3⟩ := loadMembers_ok db hm userGroups
  rw [h3] at h; simp only at h
  cases h4 : db.storages with
  | error e => rw [h4] at h; cases h; rfl
  | ok storages =>
  rw [h4] at h; simp only at h
  cases h5 : db.strategies with
  | error e => rw [h5] at h; cases h; rfl
  | ok strategies =>
  rw [h5] at h; simp only at h
  cases h6 : db.jobs with
  | error e => rw [h6] at h; cases h; rfl
  | ok jobs =>
  rw [h6] at h; simp only at h
  cases h7 : db.accessGateways with
  | error e => rw [h7] at h; cases h; rfl
  | ok accessGateways =>
  rw [h7] at h; simp only at h
  cases h8 : db.commands with
  | error e => rw [h8] at h; cases h; rfl
  | ok commands =>
  rw [h8] at h; simp only at h
  cases h9 : db.credentials with
  | error e => rw [h9] at h; cases h; rfl
  | ok credentials =>
  rw [h9] at h; simp only at h
  cases h10 : decryptCredentials credentials with
  | error e => rw [h10] at h; cases h
  | ok credentials1 =>
  rw [h10] at h; simp only at h
  cases h11 : db.assets with
  | error e => rw [h11] at h; cases h; rfl
  | ok assets =>
  rw [h11] at h; simp only at h
  cases h12 : exportAssets env db assets with
  | error e => rw [h12] at h; cases h
  | ok r =>
  cases r with
  | error e => exact absurd h12 (exportAssets_no_error env db ha assets e)
  | ok assetMaps => rw [h12] at h; cases h

/-- The two reads that are reported: a failing member query and a failing attribute query
make `export` return the error of the query, and nothing is written. -/
theorem export_member_failure_returns_error {S : Schema} (env : Env S) (db : DB S)
    (users : List (User S)) (g : UserGroup S) (gs : List (UserGroup S)) (e : GoError)
    (hu : db.users = Except.ok users) (hg : db.userGroups = Except.ok (g :: gs))
    (hm : db.userGroupMembers g.ID = Except.error e) :
    exportRun env db = Except.ok { err := some e, writes := [] } := by
  have hb : exportBackup env db = Except.ok (Sum.inl (some e)) := by
    simp only [exportBackup, hu, hg, loadMembers, hm]
  simp only [exportRun, hb]

/-- No early return of `export` writes the file. -/
theorem exportRun_early_return_writes_nothing {S : Schema} (env : Env S) (db : DB S)
    (v : Option GoError) (h : exportBackup env db = Except.ok (Sum.inl v)) :
    exportRun env db = Except.ok { err := v, writes := [] } := by
  simp only [exportRun, h]

set_option maxRecDepth 1000000 in
/-- The scenario of the specification on the sample data store: the user's password is
dropped, the credential's password is decrypted to `hunter2`, and the asset's attribute
`port = 2222` replaces the field `port = 22`. -/
theorem export_sample_scenario :
    ∃ b, exportBackup sampleEnv sampleDB = Except.ok (Sum.inr b) ∧
      b.Users.map (fun u => u.Password) = [str ""] ∧
      b.Credentials.map (fun c => (c.Password, c.PrivateKey, c.Passphrase))
        = [(str "hunter2", str "", str "")] ∧
      b.UserGroups.map (fun g => g.Members) = [[str "u1"]] ∧
      b.Assets.map (fun m => mapGet m (str "port")) = [some (AnyValue.text (str "2222"))] ∧
      b.Assets.map (fun m => mapGet m (str "created"))
        = [some (AnyValue.text (str "1970-01-01 00:00:00"))] :=
  ⟨_, rfl, rfl, rfl, rfl, rfl, rfl⟩

end NextTerminalExport
